import Mathlib

/-!
Verification of the secure in-memory data plane of the event-horizon vault.

The Go sources are shallowly embedded: byte slices become `List Nat`
(Go `byte` is `uint8`; XOR of two bytes never leaves `[0,256)`, so no
overflow reduction is needed), `int`/`int64` counters become `Int`,
Go maps become association lists with map semantics, time stamps become
abstract `Nat` instants, and every call to `crypto/rand` becomes an
explicit oracle argument (`RandDraw` for an `io.ReadFull` of a buffer,
`Nat → Option Nat` for the per-index `rand.Read` of the Fisher-Yates
shuffle, `Option String` for token/id generation); `none`/`ok = false`
model an RNG read error exactly where the Go code checks `err != nil`.
Mutating methods become state-passing functions.
-/

namespace EventHorizon

/-- Bytes of a Go `[]byte`, one `Nat` per byte. -/
abbrev Bytes := List Nat

/-- `secure.MaxBufferSize` (100 MB). -/
def MaxBufferSize : Nat := 100 * 1024 * 1024

/-- `secure.DefaultChunkSize` (256 bytes). -/
def DefaultChunkSize : Nat := 256

/-- Error values of the `secure` package that the embedded code can return. -/
inductive BufErr where
  | bufferEmpty     -- ErrBufferEmpty
  | bufferTooLarge  -- ErrBufferTooLarge
  | rngFailure      -- error returned by io.ReadFull(rand.Reader, _)
  | destroyed       -- ErrObfuscatedDestroyed / ErrScatteredDestroyed / ErrFortifiedDestroyed
  deriving DecidableEq, Repr

/-- One `io.ReadFull(rand.Reader, buf)` call: `ok = false` models a read
error; on success byte `i` of the filled buffer is `byteAt i`. -/
structure RandDraw where
  ok : Bool
  byteAt : Nat → Nat

/-- Pairwise XOR of two byte slices (`zipWith`; the Go loops below always
run over equal-length slices). -/
def xorBytes (a b : Bytes) : Bytes := List.zipWith (fun x y => x ^^^ y) a b

@[simp] theorem xorBytes_length (a b : Bytes) :
    (xorBytes a b).length = min a.length b.length := by
  simp [xorBytes]

theorem xorBytes_cancel (a b : Bytes) (h : b.length = a.length) :
    xorBytes (xorBytes a b) b = a := by
  induction a generalizing b with
  | nil => simp [xorBytes]
  | cons x xs ih =>
    cases b with
    | nil => simp at h
    | cons y ys =>
      simp only [List.length_cons, Nat.succ.injEq] at h
      simp [xorBytes, List.zipWith] at ih ⊢
      constructor
      · rw [Nat.xor_assoc, Nat.xor_self, Nat.xor_zero]
      · exact ih ys h

/-! ## ObfuscatedBuffer (src/unnamed/part_005)

XOR-pad storage.  The rotation interval and the rotation goroutine's
timing are not modelled; a `rotate` step is the body of
`ObfuscatedBuffer.rotate`, applied once per tick with that tick's RNG
draw. -/

structure ObfuscatedBuffer where
  data : Bytes      -- XOR'd data
  pad : Bytes       -- current XOR pad
  size : Nat        -- original data size
  destroyed : Bool
  deriving DecidableEq, Repr

/-- `NewObfuscatedBufferWithInterval` (the interval argument only rounds a
non-positive duration up to the default and has no other effect, so it is
dropped).  `draw` is the `io.ReadFull` that fills the initial pad. -/
def NewObfuscatedBufferWithInterval (data : Bytes) (draw : RandDraw) :
    Except BufErr ObfuscatedBuffer :=
  if data.length = 0 then .error .bufferEmpty
  else if MaxBufferSize < data.length then .error .bufferTooLarge
  else if draw.ok then
    let pad := (List.range data.length).map draw.byteAt
    .ok { data := xorBytes data pad, pad := pad, size := data.length,
          destroyed := false }
  else .error .rngFailure

/-- `ObfuscatedBuffer.rotate`: draw a fresh pad; on RNG error keep the
current pad and change nothing. -/
def ObfuscatedBuffer.rotate (ob : ObfuscatedBuffer) (draw : RandDraw) :
    ObfuscatedBuffer :=
  if ob.destroyed then ob
  else if draw.ok then
    let newPad := (List.range ob.size).map draw.byteAt
    { ob with data := xorBytes (xorBytes ob.data ob.pad) newPad, pad := newPad }
  else ob

/-- `ObfuscatedBuffer.Read`: decrypt `data ^ pad` into a fresh copy. -/
def ObfuscatedBuffer.Read (ob : ObfuscatedBuffer) : Except BufErr Bytes :=
  if ob.destroyed then .error .destroyed
  else .ok (xorBytes ob.data ob.pad)

/-- `ObfuscatedBuffer.Size`. -/
def ObfuscatedBuffer.Size (ob : ObfuscatedBuffer) : Nat :=
  if ob.destroyed then 0 else ob.size

/-- A finite sequence of pad rotations, one RNG draw per tick. -/
def ObfuscatedBuffer.rotations (ob : ObfuscatedBuffer) (draws : List RandDraw) :
    ObfuscatedBuffer :=
  draws.foldl ObfuscatedBuffer.rotate ob

/-- The well-formedness a live buffer keeps: slice lengths match `size`
and the buffer is not destroyed, and `data ^ pad` is the original input. -/
def ObfuscatedBuffer.holds (ob : ObfuscatedBuffer) (orig : Bytes) : Prop :=
  ob.destroyed = false ∧ ob.data.length = orig.length ∧
    ob.pad.length = orig.length ∧ ob.size = orig.length ∧
    xorBytes ob.data ob.pad = orig

theorem holds_of_new (data : Bytes) (draw : RandDraw) (ob : ObfuscatedBuffer)
    (h : NewObfuscatedBufferWithInterval data draw = .ok ob) :
    ob.holds data := by
  unfold NewObfuscatedBufferWithInterval at h
  split at h
  · exact absurd h (by simp)
  split at h
  · exact absurd h (by simp)
  split at h
  · simp only [Except.ok.injEq] at h
    subst h
    refine ⟨rfl, ?_, by simp, by simp, ?_⟩
    · simp
    · exact xorBytes_cancel _ _ (by simp)
  · exact absurd h (by simp)

theorem holds_rotate (ob : ObfuscatedBuffer) (orig : Bytes) (draw : RandDraw)
    (h : ob.holds orig) : (ob.rotate draw).holds orig := by
  obtain ⟨hd, hdl, hpl, hs, hx⟩ := h
  unfold ObfuscatedBuffer.rotate
  rw [hd]
  simp only [Bool.false_eq_true, if_false]
  split
  · rw [hx]
    refine ⟨rfl, ?_, ?_, hs, xorBytes_cancel _ _ (by simp [hs])⟩
    · simp [hs]
    · simp [hs]
  · exact ⟨hd, hdl, hpl, hs, hx⟩

theorem holds_rotations (ob : ObfuscatedBuffer) (orig : Bytes)
    (draws : List RandDraw) (h : ob.holds orig) :
    (ob.rotations draws).holds orig := by
  induction draws generalizing ob with
  | nil => exact h
  | cons d ds ih => exact ih _ (holds_rotate _ _ _ h)

theorem read_of_holds (ob : ObfuscatedBuffer) (orig : Bytes)
    (h : ob.holds orig) : ob.Read = .ok orig := by
  obtain ⟨hd, _, _, _, hx⟩ := h
  simp [ObfuscatedBuffer.Read, hd, hx]

/-- A failed RNG draw leaves the buffer exactly as it was. -/
theorem rotate_rng_failure (ob : ObfuscatedBuffer) (draw : RandDraw)
    (h : draw.ok = false) : ob.rotate draw = ob := by
  unfold ObfuscatedBuffer.rotate
  rw [h]
  simp

/-! ## ScatteredBuffer (src/internal/secure/scattered.go)

Chunked storage in shuffled order. -/

/-- The parallel assignment `order[i], order[j] = order[j], order[i]`. -/
def swapAt (l : List Nat) (i j : Nat) : List Nat :=
  (l.set i (l.getD j 0)).set j (l.getD i 0)

/-- One iteration of the `shuffleOrder` loop at index `i`: the RNG draw
`c` is the `uint64` read by `rand.Read` (`none` = read error, which falls
back to swapping `i` with `i / 2`). -/
def shuffleStep (l : List Nat) (i : Nat) (c : Option Nat) : List Nat :=
  match c with
  | none => swapAt l i (i / 2)
  | some r => swapAt l i (r % (i + 1))

/-- The `for i := n-1; i > 0; i--` loop of `shuffleOrder`, processing
indices `i, i-1, …, 1`. -/
def shuffleAux (rng : Nat → Option Nat) : List Nat → Nat → List Nat
  | l, 0 => l
  | l, i + 1 => shuffleAux rng (shuffleStep l (i + 1) (rng (i + 1))) i

/-- `shuffleOrder`: Fisher-Yates over the whole slice. -/
def shuffleOrder (l : List Nat) (rng : Nat → Option Nat) : List Nat :=
  shuffleAux rng l (l.length - 1)

/-- The window `data[pos*cs : pos*cs+cs]` (clipped at the end), which is
the chunk the constructors copy for original position `pos`. -/
def chunkAt (data : Bytes) (cs pos : Nat) : Bytes :=
  (data.drop (pos * cs)).take cs

/-- `copy(result[start:], src)` clipped to `result`'s length: Go's `copy`
never grows the destination. -/
def overwrite (l : List Nat) (start : Nat) (src : List Nat) : List Nat :=
  l.take start ++ src.take (l.length - start) ++ l.drop (start + src.length)

/-- The reassembly loop shared by `ScatteredBuffer.Read` and
`FortifiedBuffer.readScatterObfuscate`: place each chunk at original
offset `pos * cs`, skipping empty chunks and positions past the end. -/
def reassembleAux (n cs : Nat) : Bytes → List (Nat × Bytes) → Bytes
  | acc, [] => acc
  | acc, (pos, c) :: rest =>
    if c.length = 0 then reassembleAux n cs acc rest
    else if n ≤ pos * cs then reassembleAux n cs acc rest
    else reassembleAux n cs (overwrite acc (pos * cs) (c.take (n - pos * cs))) rest

structure ScatteredBuffer where
  chunks : List Bytes  -- chunks in shuffled order
  order : List Nat     -- order[i] = original position of chunk at index i
  chunkSize : Nat
  totalSize : Nat
  destroyed : Bool
  deriving DecidableEq, Repr

/-- The chunk-size adjustment of `NewScatteredBufferWithChunkSize` and
`initScatterObfuscate`: a non-positive request falls back to the default,
and when fewer than 4 chunks would result the chunk size is recomputed as
`(n+3)/4` (Go's `chunkSize <= 0` collapses to `= 0` on `Nat`). -/
def adjustedChunkSize (n cs0 : Nat) : Nat :=
  let cs1 := if cs0 = 0 then DefaultChunkSize else cs0
  if (n + cs1 - 1) / cs1 < 4 then
    let c := (n + 3) / 4
    if c < 1 then 1 else c
  else cs1

/-- `NewScatteredBufferWithChunkSize`.  `rng` feeds the Fisher-Yates
shuffle. -/
def NewScatteredBufferWithChunkSize (data : Bytes) (cs0 : Nat)
    (rng : Nat → Option Nat) : Except BufErr ScatteredBuffer :=
  if data.length = 0 then .error .bufferEmpty
  else if MaxBufferSize < data.length then .error .bufferTooLarge
  else
    let n := data.length
    let cs := adjustedChunkSize n cs0
    let numChunks := (n + cs - 1) / cs
    let order := shuffleOrder (List.range numChunks) rng
    .ok { chunks := order.map (chunkAt data cs), order := order,
          chunkSize := cs, totalSize := n, destroyed := false }

/-- `ScatteredBuffer.Read`: reassemble chunk `i` at offset
`order[i] * chunkSize` (the `i >= len(chunks)` guard is the `zip`'s
truncation). -/
def ScatteredBuffer.Read (sb : ScatteredBuffer) : Except BufErr Bytes :=
  if sb.destroyed then .error .destroyed
  else .ok (reassembleAux sb.totalSize sb.chunkSize
      (List.replicate sb.totalSize 0) (sb.order.zip sb.chunks))

/-- `ScatteredBuffer.Size`. -/
def ScatteredBuffer.Size (sb : ScatteredBuffer) : Nat :=
  if sb.destroyed then 0 else sb.totalSize

/-- `ScatteredBuffer.ChunkCount`. -/
def ScatteredBuffer.ChunkCount (sb : ScatteredBuffer) : Nat :=
  if sb.destroyed then 0 else sb.chunks.length

/-! ### Element-level facts about `overwrite`, `chunkAt`, `swapAt` -/

@[simp] theorem overwrite_length (l src : Bytes) (s : Nat) :
    (overwrite l s src).length = l.length := by
  simp only [overwrite, List.length_append, List.length_take, List.length_drop]
  omega

theorem overwrite_of_le (l src : Bytes) (s : Nat) (h : l.length ≤ s) :
    overwrite l s src = l := by
  unfold overwrite
  rw [List.take_of_length_le h, Nat.sub_eq_zero_of_le h,
    List.drop_eq_nil_of_le (le_trans h (Nat.le_add_right s src.length))]
  simp

theorem overwrite_getElem? (l src : Bytes) (s p : Nat) :
    (overwrite l s src)[p]? =
      if s ≤ p ∧ p < s + src.length ∧ p < l.length then src[p - s]? else l[p]? := by
  by_cases hs : l.length ≤ s
  · rw [overwrite_of_le l src s hs, if_neg (by omega)]
  · unfold overwrite
    rw [List.append_assoc, List.getElem?_append, List.length_take]
    have hmin : min s l.length = s := by omega
    rw [hmin]
    by_cases hp1 : p < s
    · rw [if_pos hp1, List.getElem?_take, if_pos hp1, if_neg (by omega)]
    · rw [if_neg hp1, List.getElem?_append, List.length_take]
      by_cases hp2 : p - s < min (l.length - s) src.length
      · rw [if_pos hp2, List.getElem?_take, if_pos (by omega), if_pos (by omega)]
      · rw [if_neg hp2, List.getElem?_drop]
        by_cases hp3 : p < l.length
        · rw [if_neg (by omega)]
          congr 1
          omega
        · rw [if_neg (by omega), List.getElem?_eq_none (by omega),
            List.getElem?_eq_none (by omega)]

theorem overwrite_getD (l src : Bytes) (s p : Nat) :
    (overwrite l s src).getD p 0 =
      if s ≤ p ∧ p < s + src.length ∧ p < l.length then src.getD (p - s) 0
      else l.getD p 0 := by
  rw [List.getD_eq_getElem?_getD, List.getD_eq_getElem?_getD,
    List.getD_eq_getElem?_getD, overwrite_getElem?]
  split <;> rfl

@[simp] theorem chunkAt_length (data : Bytes) (cs pos : Nat) :
    (chunkAt data cs pos).length = min cs (data.length - pos * cs) := by
  simp [chunkAt]

theorem chunkAt_getD (data : Bytes) (cs pos t : Nat) (ht : t < cs) :
    (chunkAt data cs pos).getD t 0 = data.getD (pos * cs + t) 0 := by
  rw [List.getD_eq_getElem?_getD, List.getD_eq_getElem?_getD]
  simp only [chunkAt, List.getElem?_take, if_pos ht, List.getElem?_drop]

@[simp] theorem swapAt_length (l : List Nat) (i j : Nat) :
    (swapAt l i j).length = l.length := by
  simp [swapAt]

theorem getD_of_lt (l : List Nat) (n : Nat) (h : n < l.length) :
    l.getD n 0 = l.get ⟨n, h⟩ := by
  rw [List.getD_eq_getElem?_getD, List.getElem?_eq_getElem h]
  rfl

theorem getElem?_swapAt (l : List Nat) (i j t : Nat) (hi : i < l.length)
    (hj : j < l.length) :
    (swapAt l i j)[t]? =
      if t = j then some (l.get ⟨i, hi⟩)
      else if t = i then some (l.get ⟨j, hj⟩) else l[t]? := by
  unfold swapAt
  rw [List.getElem?_set, List.getElem?_set, List.length_set,
    getD_of_lt l i hi, getD_of_lt l j hj]
  by_cases htj : t = j
  · rw [if_pos htj.symm, if_pos hj, if_pos htj]
  · rw [if_neg fun h => htj h.symm, if_neg htj]
    by_cases hti : t = i
    · rw [if_pos hti.symm, if_pos hi, if_pos hti]
    · rw [if_neg fun h => hti h.symm, if_neg hti]

theorem mem_swapAt {l : List Nat} {i j a : Nat} (hi : i < l.length)
    (hj : j < l.length) : a ∈ swapAt l i j ↔ a ∈ l := by
  constructor
  · intro h
    rcases List.mem_or_eq_of_mem_set h with h' | rfl
    · rcases List.mem_or_eq_of_mem_set h' with h'' | rfl
      · exact h''
      · rw [getD_of_lt l j hj]
        exact List.get_mem l j hj
    · rw [getD_of_lt l i hi]
      exact List.get_mem l i hi
  · intro h
    obtain ⟨t, ht, rfl⟩ := List.mem_iff_getElem.mp h
    rw [List.mem_iff_getElem]
    by_cases hti : t = i
    · refine ⟨j, by simpa using hj, ?_⟩
      have := getElem?_swapAt l i j j hi hj
      rw [if_pos rfl] at this
      subst hti
      rw [List.getElem_eq_iff]
      simpa using this
    · by_cases htj : t = j
      · refine ⟨i, by simpa using hi, ?_⟩
        have := getElem?_swapAt l i j i hi hj
        subst htj
        rw [if_neg fun h => hti h.symm, if_pos rfl] at this
        rw [List.getElem_eq_iff]
        simpa using this
      · refine ⟨t, by simpa using ht, ?_⟩
        have := getElem?_swapAt l i j t hi hj
        rw [if_neg htj, if_neg hti] at this
        rw [List.getElem_eq_iff]
        rw [this, List.getElem?_eq_getElem ht]

@[simp] theorem shuffleStep_length (l : List Nat) (i : Nat) (c : Option Nat) :
    (shuffleStep l i c).length = l.length := by
  cases c <;> simp [shuffleStep]

theorem mem_shuffleStep {l : List Nat} {i a : Nat} (c : Option Nat)
    (hi : i < l.length) : a ∈ shuffleStep l i c ↔ a ∈ l := by
  cases c with
  | none => exact mem_swapAt hi (by omega)
  | some r =>
    exact mem_swapAt hi (lt_of_le_of_lt (Nat.le_of_lt_succ
      (Nat.mod_lt r (Nat.succ_pos i))) hi)

@[simp] theorem shuffleAux_length (rng : Nat → Option Nat) :
    ∀ (i : Nat) (l : List Nat), (shuffleAux rng l i).length = l.length
  | 0, _ => rfl
  | i + 1, l => by
    rw [shuffleAux, shuffleAux_length rng i, shuffleStep_length]

theorem mem_shuffleAux (rng : Nat → Option Nat) {a : Nat} :
    ∀ (i : Nat) (l : List Nat), i < l.length →
      (a ∈ shuffleAux rng l i ↔ a ∈ l)
  | 0, _, _ => Iff.rfl
  | i + 1, l, h => by
    rw [shuffleAux]
    rw [mem_shuffleAux rng i _ (by simpa using Nat.lt_of_succ_lt h),
      mem_shuffleStep _ h]

@[simp] theorem shuffleOrder_length (l : List Nat) (rng : Nat → Option Nat) :
    (shuffleOrder l rng).length = l.length := by
  simp [shuffleOrder]

theorem mem_shuffleOrder {l : List Nat} {a : Nat} (rng : Nat → Option Nat)
    (h : l ≠ []) : a ∈ shuffleOrder l rng ↔ a ∈ l := by
  have hl : 0 < l.length := List.length_pos.mpr h
  exact mem_shuffleAux rng (l.length - 1) l (by omega)

theorem reassembleAux_length (n cs : Nat) :
    ∀ (pairs : List (Nat × Bytes)) (acc : Bytes),
      (reassembleAux n cs acc pairs).length = acc.length
  | [], _ => rfl
  | (pos, c) :: rest, acc => by
    simp only [reassembleAux]
    split
    · exact reassembleAux_length n cs rest acc
    split
    · exact reassembleAux_length n cs rest acc
    · rw [reassembleAux_length n cs rest _, overwrite_length]

/-- Pointwise description of the reassembly loop: a position whose chunk
index occurs among the processed pairs holds the original byte, any other
position still holds what the accumulator held.  The hypothesis says each
processed pair carries exactly the chunk the constructors copied for its
original position. -/
theorem reassembleAux_getD (data : Bytes) (cs : Nat) (hcs : 0 < cs)
    (p : Nat) (hp : p < data.length)
    (pairs : List (Nat × Bytes)) (acc : Bytes) (hacc : acc.length = data.length)
    (hpairs : ∀ pc ∈ pairs, pc.1 * cs < data.length →
      pc.2 = chunkAt data cs pc.1) :
    (reassembleAux data.length cs acc pairs).getD p 0 =
      if p / cs ∈ pairs.map Prod.fst then data.getD p 0 else acc.getD p 0 := by
  have hdivle : p / cs * cs ≤ p := Nat.div_mul_le_self p cs
  have hmod : p % cs < cs := Nat.mod_lt p hcs
  have hdm : cs * (p / cs) + p % cs = p := Nat.div_add_mod p cs
  rw [Nat.mul_comm] at hdm
  induction pairs generalizing acc with
  | nil => simp [reassembleAux]
  | cons pc rest ih =>
    obtain ⟨q, c⟩ := pc
    have hqc : q * cs < data.length → c = chunkAt data cs q :=
      hpairs (q, c) (List.mem_cons_self _ _)
    have hrest : ∀ pc ∈ rest, pc.1 * cs < data.length →
        pc.2 = chunkAt data cs pc.1 :=
      fun pc h => hpairs pc (List.mem_cons_of_mem _ h)
    simp only [reassembleAux, List.map_cons, List.mem_cons]
    by_cases hc0 : c.length = 0
    · rw [if_pos hc0, ih acc hacc hrest]
      have hqne : ¬ p / cs = q := by
        intro hq
        by_cases hqn : q * cs < data.length
        · have hcl : c.length = min cs (data.length - q * cs) := by
            rw [hqc hqn, chunkAt_length]
          omega
        · subst hq
          omega
      by_cases hm : p / cs ∈ rest.map Prod.fst
      · rw [if_pos hm, if_pos (Or.inr hm)]
      · rw [if_neg hm, if_neg fun h => h.elim hqne hm]
    · rw [if_neg hc0]
      by_cases hqn : data.length ≤ q * cs
      · rw [if_pos hqn, ih acc hacc hrest]
        have hqne : ¬ p / cs = q := by
          intro hq
          subst hq
          omega
        by_cases hm : p / cs ∈ rest.map Prod.fst
        · rw [if_pos hm, if_pos (Or.inr hm)]
        · rw [if_neg hm, if_neg fun h => h.elim hqne hm]
      · rw [if_neg hqn]
        have hcchunk := hqc (by omega)
        have hclen : c.length = min cs (data.length - q * cs) := by
          rw [hcchunk, chunkAt_length]
        have hacc2 :
            (overwrite acc (q * cs) (c.take (data.length - q * cs))).length
              = data.length := by
          rw [overwrite_length, hacc]
        rw [ih _ hacc2 hrest]
        have hsrclen : (c.take (data.length - q * cs)).length
            = min cs (data.length - q * cs) := by
          rw [List.length_take]
          omega
        by_cases hm : p / cs ∈ rest.map Prod.fst
        · rw [if_pos hm, if_pos (Or.inr hm)]
        · rw [if_neg hm]
          by_cases hq : p / cs = q
          · rw [if_pos (Or.inl hq)]
            subst hq
            rw [overwrite_getD, if_pos ⟨hdivle, by omega, by omega⟩]
            rw [List.getD_eq_getElem?_getD, List.getElem?_take,
              if_pos (by omega), ← List.getD_eq_getElem?_getD]
            rw [hcchunk, chunkAt_getD data cs _ _ (by omega)]
            congr 1
            omega
          · rw [if_neg fun h => h.elim hq hm, overwrite_getD]
            rcases Nat.lt_trichotomy q (p / cs) with hlt | heq | hlt
            · have hmul := Nat.mul_le_mul_right cs hlt
              rw [Nat.succ_mul] at hmul
              rw [if_neg (by omega)]
            · exact absurd heq.symm hq
            · have hmul := Nat.mul_le_mul_right cs hlt
              rw [Nat.succ_mul] at hmul
              rw [if_neg (by omega)]

/-- Full-coverage corollary: when the processed original positions cover
every in-range chunk index, reassembly from a zero buffer returns the
original data. -/
theorem reassembleAux_complete (data : Bytes) (cs : Nat) (hcs : 0 < cs)
    (pairs : List (Nat × Bytes))
    (hpairs : ∀ pc ∈ pairs, pc.1 * cs < data.length →
      pc.2 = chunkAt data cs pc.1)
    (hcov : ∀ q, q * cs < data.length → q ∈ pairs.map Prod.fst) :
    reassembleAux data.length cs (List.replicate data.length 0) pairs
      = data := by
  apply List.ext_getElem
  · rw [reassembleAux_length, List.length_replicate]
  intro p h1 h2
  rw [reassembleAux_length, List.length_replicate] at h1
  have hg := reassembleAux_getD data cs hcs p h2 pairs
    (List.replicate data.length 0) (by simp) hpairs
  have hmem : p / cs ∈ pairs.map Prod.fst :=
    hcov (p / cs) (lt_of_le_of_lt (Nat.div_mul_le_self p cs) h2)
  rw [if_pos hmem] at hg
  rw [getD_of_lt _ p (by rw [reassembleAux_length, List.length_replicate]; exact h2),
    getD_of_lt data p h2] at hg
  exact hg

theorem lt_ceilDiv_iff (q n cs : Nat) (hcs : 0 < cs) :
    q < (n + cs - 1) / cs ↔ q * cs < n := by
  rw [show q < (n + cs - 1) / cs ↔ q + 1 ≤ (n + cs - 1) / cs from Iff.rfl,
    Nat.le_div_iff_mul_le hcs, Nat.succ_mul]
  omega

theorem adjustedChunkSize_eq (n cs0 : Nat) :
    adjustedChunkSize n cs0 =
      if (n + (if cs0 = 0 then DefaultChunkSize else cs0) - 1) /
          (if cs0 = 0 then DefaultChunkSize else cs0) < 4 then
        (if (n + 3) / 4 < 1 then 1 else (n + 3) / 4)
      else (if cs0 = 0 then DefaultChunkSize else cs0) := rfl

theorem adjustedChunkSize_pos (n cs0 : Nat) : 0 < adjustedChunkSize n cs0 := by
  rw [adjustedChunkSize_eq]
  by_cases h0 : cs0 = 0 <;>
    simp only [h0, if_true, if_false, DefaultChunkSize] <;>
    split <;> (try split) <;> omega

theorem zip_self_map (l : List Nat) (f : Nat → Bytes) :
    l.zip (l.map f) = l.map fun q => (q, f q) := by
  induction l with
  | nil => rfl
  | cons x xs ih => simp [ih]

/-- Destructuring a successful `NewScatteredBufferWithChunkSize`. -/
theorem scattered_new_ok (data : Bytes) (cs0 : Nat) (rng : Nat → Option Nat)
    (sb : ScatteredBuffer)
    (hok : NewScatteredBufferWithChunkSize data cs0 rng = .ok sb) :
    data.length ≠ 0 ∧
    sb = { chunks := (shuffleOrder (List.range
              ((data.length + adjustedChunkSize data.length cs0 - 1) /
                adjustedChunkSize data.length cs0)) rng).map
                  (chunkAt data (adjustedChunkSize data.length cs0)),
           order := shuffleOrder (List.range
              ((data.length + adjustedChunkSize data.length cs0 - 1) /
                adjustedChunkSize data.length cs0)) rng,
           chunkSize := adjustedChunkSize data.length cs0,
           totalSize := data.length, destroyed := false } := by
  unfold NewScatteredBufferWithChunkSize at hok
  split at hok
  · exact absurd hok (by simp)
  split at hok
  · exact absurd hok (by simp)
  · simp only [Except.ok.injEq] at hok
    exact ⟨by assumption, hok.symm⟩

/-- Round-trip of the scattered buffer: `Read` reassembles the original
input, whatever the chunk size request and the shuffle randomness. -/
theorem scattered_roundtrip (data : Bytes) (cs0 : Nat) (rng : Nat → Option Nat)
    (sb : ScatteredBuffer)
    (hok : NewScatteredBufferWithChunkSize data cs0 rng = .ok sb) :
    sb.Read = .ok data ∧ sb.Size = data.length := by
  obtain ⟨hn, rfl⟩ := scattered_new_ok data cs0 rng sb hok
  set cs := adjustedChunkSize data.length cs0 with hcsdef
  have hcs : 0 < cs := adjustedChunkSize_pos data.length cs0
  set k := (data.length + cs - 1) / cs with hkdef
  have hk : 0 < k := by
    rw [hkdef, show (0 < (data.length + cs - 1) / cs) = (0 < _) from rfl]
    rw [lt_ceilDiv_iff 0 data.length cs hcs]
    omega
  constructor
  · show ScatteredBuffer.Read _ = _
    unfold ScatteredBuffer.Read
    simp only [if_neg (by simp : ¬ false = true)]
    rw [zip_self_map]
    congr 1
    apply reassembleAux_complete data cs hcs
    · intro pc hpc
      obtain ⟨a, _, rfl⟩ := List.mem_map.mp hpc
      intro _
      rfl
    · intro q hq
      rw [List.map_map]
      have : (Prod.fst ∘ fun q => (q, chunkAt data cs q)) = id := rfl
      rw [this, List.map_id]
      rw [mem_shuffleOrder rng (by simp [List.range_eq_nil]; omega)]
      rw [List.mem_range]
      rw [lt_ceilDiv_iff q data.length cs hcs]
      exact hq
  · simp [ScatteredBuffer.Size]

/-! ## FortifiedBuffer (src/internal/secure/fortified.go)

Composition of scatter and obfuscation.  Tripwire registration only adds
a destroy callback to the global tripwire and does not touch the buffer's
state, so the `RegisterTripwire` option carries no behaviour here (the
tripwire itself is modelled further below). -/

structure FortifiedOptions where
  UseObfuscation : Bool
  UseScatter : Bool
  RegisterTripwire : Bool
  RotationInterval : Nat  -- opaque duration; no behavioural effect here
  ChunkSize : Nat         -- Go `int`; non-positive collapses to 0
  deriving Repr

/-- `DefaultFortifiedOptions` (100 ms stands for its duration value). -/
def DefaultFortifiedOptions : FortifiedOptions :=
  { UseObfuscation := true, UseScatter := true, RegisterTripwire := true,
    RotationInterval := 100, ChunkSize := DefaultChunkSize }

structure FortifiedBuffer where
  obfuscatedChunks : Option (List ObfuscatedBuffer)
  obfuscated : Option ObfuscatedBuffer
  scattered : Option ScatteredBuffer
  chunkOrder : List Nat
  chunkSize : Nat
  totalSize : Nat
  destroyed : Bool
  useObfuscation : Bool
  useScatter : Bool
  deriving DecidableEq, Repr

/-- The chunk the `initScatterObfuscate` loop feeds to the inner
obfuscated buffer for original position `pos`: an empty window gets the
single-byte placeholder `{0}`. -/
def placeholdered (data : Bytes) (cs pos : Nat) : Bytes :=
  if (chunkAt data cs pos).length = 0 then [0] else chunkAt data cs pos

/-- The chunk-construction loop of `initScatterObfuscate` over the pairs
`(i, chunkOrder[i])`; the first failing inner constructor aborts (the Go
code then destroys the chunks built so far and surfaces the error). -/
def buildObChunks (data : Bytes) (cs : Nat) (draws : Nat → RandDraw) :
    List (Nat × Nat) → Except BufErr (List ObfuscatedBuffer)
  | [] => .ok []
  | (i, pos) :: rest =>
    match NewObfuscatedBufferWithInterval (placeholdered data cs pos) (draws i) with
    | .error e => .error e
    | .ok ob =>
      match buildObChunks data cs draws rest with
      | .error e => .error e
      | .ok obs => .ok (ob :: obs)

/-- `NewFortifiedBufferWithOptions`.  `rng` feeds the scatter shuffle and
`draws i` is the pad `io.ReadFull` of the `i`-th inner obfuscated buffer
(index 0 for the single-buffer modes). -/
def NewFortifiedBufferWithOptions (data : Bytes) (opts : FortifiedOptions)
    (rng : Nat → Option Nat) (draws : Nat → RandDraw) :
    Except BufErr FortifiedBuffer :=
  if data.length = 0 then .error .bufferEmpty
  else if MaxBufferSize < data.length then .error .bufferTooLarge
  else if opts.UseScatter && opts.UseObfuscation then
    -- initScatterObfuscate: scatter first, then obfuscate each chunk
    -- (chunk size and count adjusted exactly as in the scattered buffer)
    match buildObChunks data (adjustedChunkSize data.length opts.ChunkSize)
        draws
        (shuffleOrder (List.range ((data.length +
            adjustedChunkSize data.length opts.ChunkSize - 1) /
              adjustedChunkSize data.length opts.ChunkSize)) rng).enum with
    | .error e => .error e
    | .ok obs =>
      .ok { obfuscatedChunks := some obs, obfuscated := none,
            scattered := none,
            chunkOrder := shuffleOrder (List.range ((data.length +
              adjustedChunkSize data.length opts.ChunkSize - 1) /
                adjustedChunkSize data.length opts.ChunkSize)) rng,
            chunkSize := adjustedChunkSize data.length opts.ChunkSize,
            totalSize := data.length, destroyed := false,
            useObfuscation := true, useScatter := true }
  else if opts.UseObfuscation then
    match NewObfuscatedBufferWithInterval data (draws 0) with
    | .error e => .error e
    | .ok ob =>
      .ok { obfuscatedChunks := none, obfuscated := some ob,
            scattered := none, chunkOrder := [], chunkSize := 0,
            totalSize := data.length, destroyed := false,
            useObfuscation := opts.UseObfuscation,
            useScatter := opts.UseScatter }
  else if opts.UseScatter then
    match NewScatteredBufferWithChunkSize data opts.ChunkSize rng with
    | .error e => .error e
    | .ok sb =>
      .ok { obfuscatedChunks := none, obfuscated := none,
            scattered := some sb, chunkOrder := [], chunkSize := 0,
            totalSize := data.length, destroyed := false,
            useObfuscation := opts.UseObfuscation,
            useScatter := opts.UseScatter }
  else
    -- no protection requested: still obfuscates (with a long interval)
    match NewObfuscatedBufferWithInterval data (draws 0) with
    | .error e => .error e
    | .ok ob =>
      .ok { obfuscatedChunks := none, obfuscated := some ob,
            scattered := none, chunkOrder := [], chunkSize := 0,
            totalSize := data.length, destroyed := false,
            useObfuscation := opts.UseObfuscation,
            useScatter := opts.UseScatter }

/-- The loop of `readScatterObfuscate` over `(chunkOrder[i], chunks[i])`
(the `i >= len(chunks)` guard is the `zip`'s truncation; a read error is
returned as-is after shredding the partial result). -/
def rsoAux (n cs : Nat) : Bytes → List (Nat × ObfuscatedBuffer) →
    Except BufErr Bytes
  | acc, [] => .ok acc
  | acc, (pos, ob) :: rest =>
    match ob.Read with
    | .error e => .error e
    | .ok chunkData =>
      if n ≤ pos * cs then rsoAux n cs acc rest
      else rsoAux n cs (overwrite acc (pos * cs) (chunkData.take (n - pos * cs))) rest

/-- `FortifiedBuffer.readScatterObfuscate`. -/
def FortifiedBuffer.readScatterObfuscate (fb : FortifiedBuffer)
    (obs : List ObfuscatedBuffer) : Except BufErr Bytes :=
  rsoAux fb.totalSize fb.chunkSize (List.replicate fb.totalSize 0)
    (fb.chunkOrder.zip obs)

/-- `FortifiedBuffer.Read`. -/
def FortifiedBuffer.Read (fb : FortifiedBuffer) : Except BufErr Bytes :=
  if fb.destroyed then .error .destroyed
  else match fb.obfuscatedChunks with
  | some obs => fb.readScatterObfuscate obs
  | none =>
    match fb.obfuscated with
    | some ob => ob.Read
    | none =>
      match fb.scattered with
      | some sb => sb.Read
      | none => .error .destroyed

/-- `FortifiedBuffer.Size`. -/
def FortifiedBuffer.Size (fb : FortifiedBuffer) : Nat :=
  if fb.destroyed then 0 else fb.totalSize

@[simp] theorem overwrite_nil (l : Bytes) (s : Nat) : overwrite l s [] = l := by
  simp [overwrite]

theorem buildObChunks_ok (data : Bytes) (cs : Nat) (draws : Nat → RandDraw) :
    ∀ (idxOrder : List (Nat × Nat)) (obs : List ObfuscatedBuffer),
      buildObChunks data cs draws idxOrder = .ok obs →
      ((obs.map fun ob => xorBytes ob.data ob.pad)
          = idxOrder.map fun pr => placeholdered data cs pr.2) ∧
        ∀ ob ∈ obs, ob.destroyed = false
  | [], obs, h => by
    simp only [buildObChunks, Except.ok.injEq] at h
    subst h
    simp
  | (i, pos) :: rest, obs, h => by
    simp only [buildObChunks] at h
    split at h
    · exact absurd h (by simp)
    · rename_i ob hob
      split at h
      · exact absurd h (by simp)
      · rename_i obs' hobs'
        simp only [Except.ok.injEq] at h
        subst h
        obtain ⟨ih1, ih2⟩ := buildObChunks_ok data cs draws rest obs' hobs'
        obtain ⟨hd, _, _, _, hx⟩ := holds_of_new _ _ _ hob
        refine ⟨by simp only [List.map_cons, hx, ih1], ?_⟩
        intro o ho
        rcases List.mem_cons.mp ho with rfl | ho'
        · exact hd
        · exact ih2 o ho'

theorem rsoAux_eq (n cs : Nat) :
    ∀ (pairs : List (Nat × ObfuscatedBuffer)) (acc : Bytes),
      (∀ pc ∈ pairs, pc.2.destroyed = false) →
      rsoAux n cs acc pairs =
        .ok (reassembleAux n cs acc
          (pairs.map fun pc => (pc.1, xorBytes pc.2.data pc.2.pad)))
  | [], acc, _ => rfl
  | (pos, ob) :: rest, acc, halive => by
    have hd : ob.destroyed = false :=
      halive (pos, ob) (List.mem_cons_self _ _)
    have hrest : ∀ pc ∈ rest, pc.2.destroyed = false :=
      fun pc h => halive pc (List.mem_cons_of_mem _ h)
    simp only [rsoAux, List.map_cons, reassembleAux, ObfuscatedBuffer.Read, hd,
      Bool.false_eq_true, if_false]
    by_cases hskip : n ≤ pos * cs
    · rw [if_pos hskip, if_pos hskip, ite_self]
      exact rsoAux_eq n cs rest acc hrest
    · rw [if_neg hskip, if_neg hskip]
      by_cases hlen : (xorBytes ob.data ob.pad).length = 0
      · rw [List.length_eq_zero] at hlen
        rw [if_pos (by rw [hlen]; rfl), hlen, List.take_nil, overwrite_nil]
        exact rsoAux_eq n cs rest acc hrest
      · rw [if_neg hlen]
        exact rsoAux_eq n cs rest _ hrest

theorem zip_map_xor (l : List Nat) (obs : List ObfuscatedBuffer) :
    (l.zip obs).map (fun pc => (pc.1, xorBytes pc.2.data pc.2.pad))
      = l.zip (obs.map fun ob => xorBytes ob.data ob.pad) := by
  induction l generalizing obs with
  | nil => simp
  | cons x xs ih => cases obs <;> simp [ih]

theorem placeholdered_of_lt (data : Bytes) (cs pos : Nat) (hcs : 0 < cs)
    (h : pos * cs < data.length) :
    placeholdered data cs pos = chunkAt data cs pos := by
  unfold placeholdered
  rw [if_neg]
  rw [chunkAt_length]
  omega

theorem readScatterObfuscate_roundtrip (data : Bytes) (cs : Nat)
    (hcs : 0 < cs) (rng : Nat → Option Nat) (draws : Nat → RandDraw)
    (obs : List ObfuscatedBuffer)
    (hobs : buildObChunks data cs draws
      (shuffleOrder (List.range ((data.length + cs - 1) / cs)) rng).enum
        = .ok obs)
    (hn : 0 < data.length) :
    rsoAux data.length cs (List.replicate data.length 0)
      ((shuffleOrder (List.range ((data.length + cs - 1) / cs)) rng).zip obs)
      = .ok data := by
  have hk : 0 < (data.length + cs - 1) / cs :=
    (lt_ceilDiv_iff 0 data.length cs hcs).mpr (by simpa using hn)
  set order := shuffleOrder (List.range ((data.length + cs - 1) / cs)) rng
    with horder
  obtain ⟨hmap, halive⟩ := buildObChunks_ok data cs draws order.enum obs hobs
  rw [rsoAux_eq data.length cs (order.zip obs) _ ?halive]
  case halive =>
    intro pc hpc
    obtain ⟨a, b⟩ := pc
    exact halive b (List.of_mem_zip hpc).2
  congr 1
  rw [zip_map_xor, hmap]
  rw [show (order.enum.map fun pr => placeholdered data cs pr.2)
        = order.map (placeholdered data cs) from by
      rw [show (fun pr : Nat × Nat => placeholdered data cs pr.2)
            = (placeholdered data cs) ∘ Prod.snd from rfl,
        ← List.map_map, List.enum_map_snd]]
  rw [zip_self_map]
  apply reassembleAux_complete data cs hcs
  · intro pc hpc
    obtain ⟨a, _, rfl⟩ := List.mem_map.mp hpc
    intro hlt
    exact placeholdered_of_lt data cs a hcs hlt
  · intro q hq
    rw [List.map_map]
    rw [show (Prod.fst ∘ fun q => (q, placeholdered data cs q)) = id from rfl,
      List.map_id, horder,
      mem_shuffleOrder rng (by simp [List.range_eq_nil]; omega),
      List.mem_range, lt_ceilDiv_iff q data.length cs hcs]
    exact hq

/-- C1: for every non-empty input of at most 1 MiB and every combination
of FortifiedBuffer options (and any RNG behaviour under which construction
succeeds), `Read` returns the original bytes and `Size` its length —
round-trip through scatter, obfuscation, or both. -/
theorem c1_fortified_roundtrip (data : Bytes) (opts : FortifiedOptions)
    (rng : Nat → Option Nat) (draws : Nat → RandDraw)
    (h1 : 1 ≤ data.length) (h2 : data.length ≤ 1024 * 1024)
    (fb : FortifiedBuffer)
    (hok : NewFortifiedBufferWithOptions data opts rng draws = .ok fb) :
    fb.Read = .ok data ∧ fb.Size = data.length := by
  unfold NewFortifiedBufferWithOptions at hok
  rw [if_neg (by omega)] at hok
  rw [if_neg (by unfold MaxBufferSize; omega)] at hok
  by_cases hmode1 : opts.UseScatter && opts.UseObfuscation
  · rw [if_pos hmode1] at hok
    split at hok
    · exact absurd hok (by simp)
    · rename_i obs hobs
      simp only [Except.ok.injEq] at hok
      subst hok
      refine ⟨?_, by simp [FortifiedBuffer.Size]⟩
      show FortifiedBuffer.Read _ = _
      unfold FortifiedBuffer.Read FortifiedBuffer.readScatterObfuscate
      simp only [if_neg (by simp : ¬ false = true)]
      exact readScatterObfuscate_roundtrip data _
        (adjustedChunkSize_pos data.length opts.ChunkSize) rng draws obs hobs
        (by omega)
  · rw [if_neg hmode1] at hok
    by_cases hobf : opts.UseObfuscation = true
    · rw [if_pos hobf] at hok
      split at hok
      · exact absurd hok (by simp)
      · rename_i ob hob
        simp only [Except.ok.injEq] at hok
        subst hok
        refine ⟨?_, by simp [FortifiedBuffer.Size]⟩
        show FortifiedBuffer.Read _ = _
        unfold FortifiedBuffer.Read
        simp only [if_neg (by simp : ¬ false = true)]
        exact read_of_holds ob data (holds_of_new data (draws 0) ob hob)
    · rw [if_neg hobf] at hok
      by_cases hsc : opts.UseScatter = true
      · rw [if_pos hsc] at hok
        split at hok
        · exact absurd hok (by simp)
        · rename_i sb hsb
          simp only [Except.ok.injEq] at hok
          subst hok
          refine ⟨?_, by simp [FortifiedBuffer.Size]⟩
          show FortifiedBuffer.Read _ = _
          unfold FortifiedBuffer.Read
          simp only [if_neg (by simp : ¬ false = true)]
          exact (scattered_roundtrip data opts.ChunkSize rng sb hsb).1
      · rw [if_neg hsc] at hok
        split at hok
        · exact absurd hok (by simp)
        · rename_i ob hob
          simp only [Except.ok.injEq] at hok
          subst hok
          refine ⟨?_, by simp [FortifiedBuffer.Size]⟩
          show FortifiedBuffer.Read _ = _
          unfold FortifiedBuffer.Read
          simp only [if_neg (by simp : ¬ false = true)]
          exact read_of_holds ob data (holds_of_new data (draws 0) ob hob)

/-- Witness for C1 at a concrete input: default options, shuffle RNG
failing (deterministic fallback swaps), pad RNG succeeding. -/
theorem c1_fortified_roundtrip_witness :
    (NewFortifiedBufferWithOptions [1, 2, 3, 4, 5] DefaultFortifiedOptions
        (fun _ => none) (fun _ => ⟨true, fun i => i + 7⟩)).map
      (fun fb => (fb.Read, fb.Size)) = .ok (.ok [1, 2, 3, 4, 5], 5) := by
  cases h : NewFortifiedBufferWithOptions [1, 2, 3, 4, 5]
      DefaultFortifiedOptions (fun _ => none)
      (fun _ => ⟨true, fun i => i + 7⟩) with
  | error e =>
    have hok : (NewFortifiedBufferWithOptions [1, 2, 3, 4, 5]
        DefaultFortifiedOptions (fun _ => none)
        (fun _ => ⟨true, fun i => i + 7⟩)).isOk = true := by decide
    rw [h] at hok
    exact absurd hok (by simp [Except.isOk, Except.toBool])
  | ok fb =>
    obtain ⟨hr, hs⟩ := c1_fortified_roundtrip [1, 2, 3, 4, 5]
      DefaultFortifiedOptions (fun _ => none)
      (fun _ => ⟨true, fun i => i + 7⟩) (by decide) (by decide) fb h
    simp [Except.map, hr, hs]

/-- C6: the XOR-pad invariant.  After any finite sequence of pad
rotations — each tick with arbitrary RNG behaviour, including failures —
`Read` still returns the original input; and a tick whose RNG draw fails
leaves any buffer completely unchanged. -/
theorem c6_obfuscated_rotation_invariant (data : Bytes) (draw0 : RandDraw)
    (ob : ObfuscatedBuffer)
    (hok : NewObfuscatedBufferWithInterval data draw0 = .ok ob)
    (draws : List RandDraw) :
    (ob.rotations draws).Read = .ok data ∧
      ∀ (b : ObfuscatedBuffer) (d : RandDraw), d.ok = false →
        b.rotate d = b := by
  constructor
  · exact read_of_holds _ _ (holds_rotations ob data draws
      (holds_of_new data draw0 ob hok))
  · intro b d hd
    exact rotate_rng_failure b d hd

/-- Witness for C6 at a concrete input: one successful rotation followed
by a failed one. -/
theorem c6_obfuscated_rotation_invariant_witness :
    (NewObfuscatedBufferWithInterval [9, 8, 7] ⟨true, fun i => i + 1⟩).map
      (fun ob => (ob.rotations
        [⟨true, fun i => 5 * i⟩, ⟨false, fun _ => 0⟩]).Read)
      = .ok (.ok [9, 8, 7]) := by
  cases h : NewObfuscatedBufferWithInterval [9, 8, 7]
      ⟨true, fun i => i + 1⟩ with
  | error e =>
    have hok : (NewObfuscatedBufferWithInterval [9, 8, 7]
        ⟨true, fun i => i + 1⟩).isOk = true := by decide
    rw [h] at hok
    exact absurd hok (by simp [Except.isOk, Except.toBool])
  | ok ob =>
    have := (c6_obfuscated_rotation_invariant [9, 8, 7] ⟨true, fun i => i + 1⟩
      ob h [⟨true, fun i => 5 * i⟩, ⟨false, fun _ => 0⟩]).1
    simp [Except.map, this]

/-- C5 counterexample: a 5-byte input with the default 256-byte chunk
size yields a ScatteredBuffer with only 3 chunks — the "at least 4"
claim fails (the forced-scatter recomputation gives chunk size 2, hence
`ceil(5/2) = 3` chunks). -/
theorem c5_counterexample :
    (NewScatteredBufferWithChunkSize [1, 2, 3, 4, 5] 256
        (fun _ => none)).map ScatteredBuffer.ChunkCount = .ok 3 ∧
      ¬ (4 : Nat) ≤ 3 := ⟨rfl, by decide⟩

/-- C5 as amended: the chunk count equals `ceil(n / cs')` for the
adjusted chunk size `cs'`; it is at least 4 whenever the requested chunk
size already yields at least 4 chunks, and in general it is only at least
`min n 3` (for example `n = 5` gives 3 chunks). -/
theorem c5_amended_chunk_count (data : Bytes) (cs0 : Nat)
    (rng : Nat → Option Nat) (sb : ScatteredBuffer)
    (hok : NewScatteredBufferWithChunkSize data cs0 rng = .ok sb) :
    min data.length 3 ≤ sb.ChunkCount ∧
      (4 ≤ (data.length + (if cs0 = 0 then DefaultChunkSize else cs0) - 1) /
          (if cs0 = 0 then DefaultChunkSize else cs0) →
        4 ≤ sb.ChunkCount) := by
  obtain ⟨hn, rfl⟩ := scattered_new_ok data cs0 rng sb hok
  have hcs := adjustedChunkSize_pos data.length cs0
  have hcount : (ScatteredBuffer.ChunkCount
      { chunks := (shuffleOrder (List.range
            ((data.length + adjustedChunkSize data.length cs0 - 1) /
              adjustedChunkSize data.length cs0)) rng).map
                (chunkAt data (adjustedChunkSize data.length cs0)),
        order := shuffleOrder (List.range
            ((data.length + adjustedChunkSize data.length cs0 - 1) /
              adjustedChunkSize data.length cs0)) rng,
        chunkSize := adjustedChunkSize data.length cs0,
        totalSize := data.length, destroyed := false })
      = (data.length + adjustedChunkSize data.length cs0 - 1) /
          adjustedChunkSize data.length cs0 := by
    unfold ScatteredBuffer.ChunkCount
    simp
  rw [hcount]
  rw [adjustedChunkSize_eq] at hcs ⊢
  by_cases h4 : (data.length + (if cs0 = 0 then DefaultChunkSize else cs0)
      - 1) / (if cs0 = 0 then DefaultChunkSize else cs0) < 4
  · rw [if_pos h4] at hcs ⊢
    refine ⟨?_, fun hc => absurd hc (by omega)⟩
    have hval : (if (data.length + 3) / 4 < 1 then 1
        else (data.length + 3) / 4) = (data.length + 3) / 4 := by
      rw [if_neg]
      omega
    rw [hval] at hcs ⊢
    rcases le_or_lt 3 data.length with h3 | h3
    · have : min data.length 3 = 3 := by omega
      rw [this, Nat.le_div_iff_mul_le hcs]
      omega
    · have hmin : min data.length 3 = data.length := by omega
      have hone : (data.length + 3) / 4 = 1 := by omega
      rw [hmin, hone]
      omega
  · rw [if_neg h4] at hcs ⊢
    exact ⟨by omega, fun hc => hc⟩

/-- Witness for the amended C5 at a concrete input (`n = 5`, default
chunk size, shuffle RNG failing): the bound `min 5 3 ≤ 3` is attained. -/
theorem c5_amended_chunk_count_witness :
    (NewScatteredBufferWithChunkSize [1, 2, 3, 4, 5] 256
        (fun _ => none)).map ScatteredBuffer.ChunkCount = .ok 3 ∧
      min 5 3 ≤ 3 := by
  refine ⟨rfl, ?_⟩
  cases h : NewScatteredBufferWithChunkSize [1, 2, 3, 4, 5] 256
      (fun _ => none) with
  | error e =>
    have hok : (NewScatteredBufferWithChunkSize [1, 2, 3, 4, 5] 256
        (fun _ => none)).isOk = true := by decide
    rw [h] at hok
    exact absurd hok (by simp [Except.isOk, Except.toBool])
  | ok sb =>
    have hc : sb.ChunkCount = 3 := by
      have h3 : (Except.ok sb).map ScatteredBuffer.ChunkCount
          = (Except.ok 3 : Except BufErr Nat) := by
        rw [← h]
        rfl
      simpa [Except.map] using h3
    have hb := (c5_amended_chunk_count [1, 2, 3, 4, 5] 256 (fun _ => none)
      sb h).1
    rw [hc] at hb
    exact hb

/-! ## MemoryTracker (src/unnamed/part_007)

Byte accounting with a hard cap.  The Go counters are `int64`, whose
arithmetic wraps: an `Int` value here stands for one `int64` word, and
every sum and difference the Go code computes goes through `wrap64`, the
two's-complement reduction into `[-2^63, 2^63)`.  The wrap is reachable
through the public API: adding a huge size to a full tracker makes
`m.allocated+size` negative, which passes the limit check. -/

inductive MemErr where
  | limitExceeded       -- ErrMemoryLimitExceeded
  | invalidMemoryLimit  -- ErrInvalidMemoryLimit
  deriving DecidableEq, Repr

/-- `DefaultMemoryLimit` (512 MB). -/
def DefaultMemoryLimit : Int := 512 * 1024 * 1024

/-- `MinMemoryLimit` (1 MB). -/
def MinMemoryLimit : Int := 1 * 1024 * 1024

/-- Two's-complement `int64` arithmetic: reduce into `[-2^63, 2^63)`. -/
def wrap64 (x : Int) : Int := (x + 2 ^ 63) % 2 ^ 64 - 2 ^ 63

theorem wrap64_eq_self (x : Int) (h1 : -2 ^ 63 ≤ x) (h2 : x < 2 ^ 63) :
    wrap64 x = x := by
  unfold wrap64
  omega

structure MemoryTracker where
  allocated : Int
  limit : Int
  deriving DecidableEq, Repr

/-- `NewMemoryTracker`. -/
def NewMemoryTracker (limit : Int) : Except MemErr MemoryTracker :=
  if limit = 0 then .ok { allocated := 0, limit := DefaultMemoryLimit }
  else if limit < MinMemoryLimit then .error .invalidMemoryLimit
  else .ok { allocated := 0, limit := limit }

/-- `MemoryTracker.Allocate`: the sum `m.allocated+size` is an `int64`
sum, so it wraps; the same wrapped value is compared against the limit
and, when the check passes, stored. -/
def MemoryTracker.Allocate (m : MemoryTracker) (size : Int) :
    Except MemErr MemoryTracker :=
  if size ≤ 0 then .ok m
  else if m.limit < wrap64 (m.allocated + size) then .error .limitExceeded
  else .ok { m with allocated := wrap64 (m.allocated + size) }

/-- `MemoryTracker.Free`: `m.allocated -= size` is an `int64`
difference, so it wraps; the saturation check then runs on the wrapped
value. -/
def MemoryTracker.Free (m : MemoryTracker) (size : Int) : MemoryTracker :=
  if size ≤ 0 then m
  else if wrap64 (m.allocated - size) < 0 then { m with allocated := 0 }
  else { m with allocated := wrap64 (m.allocated - size) }

/-- `MemoryTracker.Allocated`. -/
def MemoryTracker.Allocated (m : MemoryTracker) : Int := m.allocated

/-- `MemoryTracker.Available`. -/
def MemoryTracker.Available (m : MemoryTracker) : Int :=
  m.limit - m.allocated

/-- One call of a client driving the tracker: the sizes are the
non-negative byte counts of §4.7 (`allocate(n≥0)` / `free(n≥0)`). -/
inductive MemOp where
  | alloc (n : Nat)
  | free (n : Nat)
  deriving DecidableEq, Repr

/-- The byte count an operation requests. -/
def MemOp.sizeNat : MemOp → Nat
  | .alloc n => n
  | .free n => n

/-- Effect of one call on the tracker (a failed `Allocate` leaves the
state unchanged, which is what the Go method's early `return` does). -/
def MemoryTracker.step (m : MemoryTracker) (op : MemOp) : MemoryTracker :=
  match op with
  | .alloc n =>
    match m.Allocate (n : Int) with
    | .ok m' => m'
    | .error _ => m
  | .free n => m.Free (n : Int)

/-- A finite sequence of `Allocate`/`Free` calls. -/
def MemoryTracker.run (m : MemoryTracker) (ops : List MemOp) : MemoryTracker :=
  ops.foldl MemoryTracker.step m

theorem Allocate_spec (m : MemoryTracker) (s : Int) :
    m.Allocate s = if s ≤ 0 then .ok m
      else if m.limit < wrap64 (m.allocated + s) then .error .limitExceeded
      else .ok { m with allocated := wrap64 (m.allocated + s) } := rfl

theorem Free_spec (m : MemoryTracker) (s : Int) :
    m.Free s = if s ≤ 0 then m
      else if wrap64 (m.allocated - s) < 0 then { m with allocated := 0 }
      else { m with allocated := wrap64 (m.allocated - s) } := rfl

/-- In the wrap-free region `Allocate` behaves as unbounded arithmetic. -/
theorem Allocate_nowrap (m : MemoryTracker) (s : Int)
    (h1 : -2 ^ 63 ≤ m.allocated + s) (h2 : m.allocated + s < 2 ^ 63) :
    m.Allocate s = if s ≤ 0 then .ok m
      else if m.limit < m.allocated + s then .error .limitExceeded
      else .ok { m with allocated := m.allocated + s } := by
  rw [Allocate_spec, wrap64_eq_self _ h1 h2]

/-- In the wrap-free region `Free` behaves as unbounded arithmetic. -/
theorem Free_nowrap (m : MemoryTracker) (s : Int)
    (h1 : -2 ^ 63 ≤ m.allocated - s) (h2 : m.allocated - s < 2 ^ 63) :
    m.Free s = if s ≤ 0 then m
      else if m.allocated - s < 0 then { m with allocated := 0 }
      else { m with allocated := m.allocated - s } := by
  rw [Free_spec, wrap64_eq_self _ h1 h2]

theorem Allocate_bounds (m : MemoryTracker) (s : Int)
    (h : 0 ≤ m.allocated ∧ m.allocated ≤ m.limit)
    (hw1 : -2 ^ 63 ≤ m.allocated + s) (hw2 : m.allocated + s < 2 ^ 63)
    (m' : MemoryTracker) (hok : m.Allocate s = .ok m') :
    0 ≤ m'.allocated ∧ m'.allocated ≤ m'.limit ∧ m'.limit = m.limit := by
  rw [Allocate_nowrap m s hw1 hw2] at hok
  split at hok
  · simp only [Except.ok.injEq] at hok
    subst hok
    exact ⟨h.1, h.2, rfl⟩
  split at hok
  · exact absurd hok (by simp)
  · simp only [Except.ok.injEq] at hok
    subst hok
    refine ⟨?_, ?_, rfl⟩
    · show (0 : Int) ≤ m.allocated + s
      omega
    · show m.allocated + s ≤ m.limit
      omega

theorem Free_allocated (m : MemoryTracker) (s : Int) (h0 : 0 ≤ m.allocated)
    (hrep : m.allocated < 2 ^ 63) (hs : 0 ≤ s) (hs2 : s < 2 ^ 63) :
    (m.Free s).allocated = max (m.allocated - s) 0 ∧
      (m.Free s).limit = m.limit := by
  rw [Free_nowrap m s (by omega) (by omega)]
  split
  · exact ⟨by omega, rfl⟩
  split
  · refine ⟨?_, rfl⟩
    show (0 : Int) = max (m.allocated - s) 0
    omega
  · refine ⟨?_, rfl⟩
    show m.allocated - s = max (m.allocated - s) 0
    omega

theorem step_bounds (m : MemoryTracker) (op : MemOp)
    (h : 0 ≤ m.allocated ∧ m.allocated ≤ m.limit)
    (hlim : m.limit < 2 ^ 63)
    (hop : (op.sizeNat : Int) ≤ 2 ^ 63 - 1 - m.limit) :
    (0 ≤ (m.step op).allocated ∧ (m.step op).allocated ≤ (m.step op).limit) ∧
      (m.step op).limit = m.limit := by
  cases op with
  | alloc n =>
    simp only [MemOp.sizeNat] at hop
    simp only [MemoryTracker.step]
    cases hA : m.Allocate (n : Int) with
    | ok m' =>
      obtain ⟨a, b, c⟩ := Allocate_bounds m (n : Int) h (by omega) (by omega)
        m' hA
      exact ⟨⟨a, b⟩, c⟩
    | error e => exact ⟨⟨h.1, h.2⟩, rfl⟩
  | free n =>
    simp only [MemOp.sizeNat] at hop
    simp only [MemoryTracker.step]
    obtain ⟨ha, hl⟩ := Free_allocated m (n : Int) h.1 (by omega)
      (Int.natCast_nonneg n) (by omega)
    refine ⟨⟨by omega, ?_⟩, hl⟩
    rw [hl]
    omega

/-- C3 counterexample: on a representable tracker that is exactly full
(`allocated = limit = 2^20`, Go's minimum limit), `Allocate(2^63 - 1)` —
a legal `int64` request with `allocated + n > limit` — does not fail:
the `int64` sum wraps negative, passes the limit check, and leaves the
counter negative, violating both the `[0, limit]` invariant and the
claimed `MemoryLimitExceeded` failure. -/
theorem c3_counterexample :
    (1048576 : Int) + 9223372036854775807 > 1048576 ∧
      ({ allocated := 1048576, limit := 1048576 } : MemoryTracker).Allocate
          9223372036854775807
        = .ok { allocated := -9223372036853727233, limit := 1048576 } ∧
      (-9223372036853727233 : Int) < 0 := by
  refine ⟨by decide, rfl, by decide⟩

/-- C3 as amended: restricted to requests that cannot overflow `int64`
(sizes at most `2^63 - 1 - limit` for `Allocate`, below `2^63` for
`Free`, on a tracker with a representable limit), the original claim
holds: the allocated counter stays within `[0, limit]` over every finite
call sequence; an `Allocate` that would overshoot the limit fails with
`MemoryLimitExceeded` and changes nothing, any other `Allocate` succeeds
and adds exactly its size; `Free` subtracts its size, saturating at
zero.  Outside that region the `int64` sum wraps and the invariant fails
(see the counterexample). -/
theorem c3_amended_tracker_accounting (m : MemoryTracker)
    (hm : 0 ≤ m.allocated ∧ m.allocated ≤ m.limit)
    (hlim : m.limit < 2 ^ 63) :
    (∀ ops : List MemOp,
        (∀ op ∈ ops, (op.sizeNat : Int) ≤ 2 ^ 63 - 1 - m.limit) →
        0 ≤ (m.run ops).allocated ∧
          (m.run ops).allocated ≤ (m.run ops).limit ∧
          (m.run ops).limit = m.limit) ∧
      (∀ n : Nat, (n : Int) ≤ 2 ^ 63 - 1 - m.limit →
        (m.limit < m.allocated + n →
          m.Allocate n = .error .limitExceeded) ∧
        (m.allocated + n ≤ m.limit →
          m.Allocate (n : Int) = .ok { m with allocated := m.allocated + n })) ∧
      (∀ n : Nat, (n : Int) < 2 ^ 63 →
        (m.Free (n : Int)).allocated = max (m.allocated - n) 0 ∧
          (m.Free (n : Int)).limit = m.limit) := by
  refine ⟨?_, ?_, ?_⟩
  · intro ops
    induction ops generalizing m hm hlim with
    | nil => exact fun _ => ⟨hm.1, hm.2, rfl⟩
    | cons op rest ih =>
      intro hsz
      obtain ⟨hb, hl⟩ := step_bounds m op hm hlim
        (hsz op (List.mem_cons_self _ _))
      have hrun := ih (m.step op) hb (by rw [hl]; exact hlim)
        (by intro op' hop'; rw [hl]; exact hsz op' (List.mem_cons_of_mem _ hop'))
      simp only [MemoryTracker.run, List.foldl_cons] at hrun ⊢
      exact ⟨hrun.1, hrun.2.1, by rw [hrun.2.2, hl]⟩
  · intro n hn
    constructor
    · intro hover
      rw [Allocate_nowrap m (n : Int) (by omega) (by omega),
        if_neg (by omega), if_pos (by omega)]
    · intro hfit
      rw [Allocate_nowrap m (n : Int) (by omega) (by omega)]
      by_cases hz : (n : Int) ≤ 0
      · rw [if_pos hz]
        have hzz : m.allocated + (n : Int) = m.allocated := by omega
        rw [hzz]
      · rw [if_neg hz, if_neg (by omega)]
  · intro n hn
    exact Free_allocated m (n : Int) hm.1 (by omega)
      (Int.natCast_nonneg n) hn

set_option maxRecDepth 8192 in
/-- Witness for the amended C3 at a concrete state and call sequence in
the wrap-free region. -/
theorem c3_amended_tracker_accounting_witness :
    ((({ allocated := 0, limit := 1048576 } : MemoryTracker).run
        [.alloc 700000, .alloc 700000, .free 200, .free 9999999]).allocated
          = 0 ∧
      ({ allocated := 0, limit := 1048576 } : MemoryTracker).Allocate 700000
        = .ok { allocated := 700000, limit := 1048576 } ∧
      ({ allocated := 700000, limit := 1048576 } : MemoryTracker).Allocate
          700000 = .error .limitExceeded) ∧
    (0 : Int) ≤ (({ allocated := 0, limit := 1048576 } : MemoryTracker).run
        [.alloc 700000, .alloc 700000, .free 200, .free 9999999]).allocated := by
  refine ⟨⟨rfl, rfl, rfl⟩, ?_⟩
  exact ((c3_amended_tracker_accounting { allocated := 0, limit := 1048576 }
    ⟨by norm_num, by norm_num⟩ (by norm_num)).1
    [.alloc 700000, .alloc 700000, .free 200, .free 9999999] (by decide)).1

/-! ## Session manager (src/internal/store/session.go)

Locked/unlocked state machine.  Timestamps are abstract `Nat` instants
(`time.Time{}` is instant 0); `crypto.GenerateSessionTokenString` is an
oracle `Option String` (`none` = RNG failure).  The `onLock`/`onUnlock`
callbacks only notify observers and never touch session state, so they
are not carried.  `crypto.ConstantTimeCompare` wraps
`subtle.ConstantTimeCompare`, which returns 1 exactly when the two slices
are equal (timing is not modelled). -/

inductive SessErr where
  | sessionLocked     -- ErrSessionLocked
  | sessionNotLocked  -- ErrSessionNotLocked
  | invalidPassword   -- ErrInvalidPassword
  | keyHashNil        -- "session keyHash is nil" (defensive check)
  | rngFailure        -- token generation failed
  deriving DecidableEq, Repr

/-- `crypto.ConstantTimeCompare`: true iff equal length and contents. -/
def ConstantTimeCompare (a b : Bytes) : Bool := a == b

structure Session where
  token : String
  locked : Bool
  createdAt : Nat
  lockedAt : Nat
  keyHash : Option Bytes  -- nil ↦ none
  salt : Option Bytes     -- nil ↦ none
  deriving DecidableEq, Repr

structure SessionManager where
  session : Option Session
  deriving DecidableEq, Repr

/-- `NewSessionManager`. -/
def NewSessionManager : SessionManager := { session := none }

/-- `SessionManager.CreateSession`: returns the token and the new state. -/
def SessionManager.CreateSession (sm : SessionManager)
    (tokenRes : Option String) (now : Nat) :
    Except SessErr (String × SessionManager) :=
  match tokenRes with
  | none => .error .rngFailure
  | some token =>
    .ok (token, { sm with session := some {
      token := token, locked := false, createdAt := now, lockedAt := 0,
      keyHash := none, salt := none } })

/-- `SessionManager.IsLocked`. -/
def SessionManager.IsLocked (sm : SessionManager) : Bool :=
  match sm.session with
  | none => false
  | some s => s.locked

/-- `SessionManager.Lock`: creates a session if none exists, refuses a
second lock, stores copies of `keyHash` and `salt`, stamps `lockedAt`. -/
def SessionManager.Lock (sm : SessionManager) (keyHash salt : Bytes)
    (tokenRes : Option String) (now : Nat) :
    Except SessErr SessionManager :=
  match sm.session with
  | none =>
    match tokenRes with
    | none => .error .rngFailure
    | some token =>
      -- fresh session is unlocked, so the locked check passes
      .ok { session := some {
        token := token, locked := true, createdAt := now,
        lockedAt := now, keyHash := some keyHash, salt := some salt } }
  | some s =>
    if s.locked then .error .sessionLocked
    else .ok { session := some { s with
      locked := true, lockedAt := now,
      keyHash := some keyHash, salt := some salt } }

/-- `SessionManager.VerifyKeyHash`: pure check; the Go method performs no
writes, so the manager state is returned unchanged alongside the result. -/
def SessionManager.VerifyKeyHash (sm : SessionManager) (keyHash : Bytes) :
    Except SessErr Unit × SessionManager :=
  (match sm.session with
   | none => .error .sessionNotLocked
   | some s =>
     if !s.locked then .error .sessionNotLocked
     else match s.keyHash with
       | none => .error .keyHashNil
       | some h =>
         if !ConstantTimeCompare h keyHash then .error .invalidPassword
         else .ok (),
   sm)

/-- `SessionManager.Unlock`: caller is expected to have verified the key
hash; clears `keyHash`/`salt`, resets `lockedAt`. -/
def SessionManager.Unlock (sm : SessionManager) :
    Except SessErr SessionManager :=
  match sm.session with
  | none => .error .sessionNotLocked
  | some s =>
    if !s.locked then .error .sessionNotLocked
    else .ok { session := some { s with
      locked := false, lockedAt := 0,
      keyHash := none, salt := none } }

/-- `SessionManager.ForceUnlock` (the shred callback destroys store
contents, not session fields, and is invoked before clearing). -/
def SessionManager.ForceUnlock (sm : SessionManager) :
    Except SessErr SessionManager :=
  match sm.session with
  | none => .error .sessionNotLocked
  | some s =>
    if !s.locked then .error .sessionNotLocked
    else .ok { session := some { s with
      locked := false, lockedAt := 0,
      keyHash := none, salt := none } }

/-- `SessionManager.GetSalt`: a copy of the salt when locked, nil
otherwise. -/
def SessionManager.GetSalt (sm : SessionManager) : Option Bytes :=
  match sm.session with
  | none => none
  | some s =>
    if !s.locked then none
    else match s.salt with
      | none => none
      | some salt => some salt

/-- `SessionManager.GetToken`: empty string when no session exists. -/
def SessionManager.GetToken (sm : SessionManager) : String :=
  match sm.session with
  | none => ""
  | some s => s.token

structure SessionStatus where
  Exists : Bool
  Locked : Bool
  CreatedAt : Nat
  LockedAt : Nat
  deriving DecidableEq, Repr

/-- `SessionManager.Status`. -/
def SessionManager.Status (sm : SessionManager) : SessionStatus :=
  match sm.session with
  | none => { Exists := false, Locked := false, CreatedAt := 0, LockedAt := 0 }
  | some s =>
    { Exists := true, Locked := s.locked, CreatedAt := s.createdAt,
      LockedAt := s.lockedAt }

/-- `SessionManager.Destroy`. -/
def SessionManager.Destroy (sm : SessionManager) : SessionManager :=
  match sm.session with
  | none => sm
  | some _ => { session := none }

/-- C2: after a successful `Lock(key_hash, salt)` with a 32-byte key hash
and a salt of at least 16 bytes, `IsLocked` is true and `GetSalt` returns
a copy equal to `salt`; after a subsequent successful `Unlock`,
`IsLocked` is false and `GetSalt` is nil. -/
theorem c2_lock_unlock_salt (sm : SessionManager) (h s : Bytes)
    (tokenRes : Option String) (now : Nat)
    (hh : h.length = 32) (hs : 16 ≤ s.length)
    (sm1 : SessionManager) (hlock : sm.Lock h s tokenRes now = .ok sm1) :
    sm1.IsLocked = true ∧ sm1.GetSalt = some s ∧
      ∀ sm2, sm1.Unlock = .ok sm2 →
        sm2.IsLocked = false ∧ sm2.GetSalt = none := by
  obtain ⟨osess⟩ := sm
  unfold SessionManager.Lock at hlock
  cases osess with
  | none =>
    cases tokenRes with
    | none => exact absurd hlock (by simp)
    | some tok =>
      simp only [Except.ok.injEq] at hlock
      subst hlock
      refine ⟨rfl, rfl, ?_⟩
      intro sm2 hu
      simp only [SessionManager.Unlock, Bool.not_true, Bool.false_eq_true,
        if_false, Except.ok.injEq] at hu
      subst hu
      exact ⟨rfl, rfl⟩
  | some sess =>
    simp only at hlock
    by_cases hl : sess.locked
    · rw [if_pos hl] at hlock
      exact absurd hlock (by simp)
    · rw [if_neg hl] at hlock
      simp only [Except.ok.injEq] at hlock
      subst hlock
      refine ⟨rfl, rfl, ?_⟩
      intro sm2 hu
      simp only [SessionManager.Unlock, Bool.not_true, Bool.false_eq_true,
        if_false, Except.ok.injEq] at hu
      subst hu
      exact ⟨rfl, rfl⟩

/-- Witness for C2 at a concrete manager, key hash and salt. -/
theorem c2_lock_unlock_salt_witness :
    (List.replicate 32 7).length = 32 ∧
      16 ≤ (List.replicate 16 9).length ∧
      (NewSessionManager.Lock (List.replicate 32 7) (List.replicate 16 9)
        (some "tok") 5).map
        (fun sm1 => (sm1.IsLocked, sm1.GetSalt,
          sm1.Unlock.map fun sm2 => (sm2.IsLocked, sm2.GetSalt)))
        = .ok (true, some (List.replicate 16 9),
            .ok (false, none)) := by
  refine ⟨by decide, by decide, ?_⟩
  cases hlk : NewSessionManager.Lock (List.replicate 32 7)
      (List.replicate 16 9) (some "tok") 5 with
  | error e =>
    exact absurd hlk (by simp [NewSessionManager, SessionManager.Lock])
  | ok sm1 =>
    obtain ⟨h1, h2, h3⟩ := c2_lock_unlock_salt NewSessionManager
      (List.replicate 32 7) (List.replicate 16 9) (some "tok") 5
      (by decide) (by decide) sm1 hlk
    cases hu : sm1.Unlock with
    | error e =>
      have : sm1 = { session := some {
          token := "tok", locked := true, createdAt := 5, lockedAt := 5,
          keyHash := some (List.replicate 32 7),
          salt := some (List.replicate 16 9) } } := by
        have := hlk
        simp only [NewSessionManager, SessionManager.Lock,
          Except.ok.injEq] at this
        exact this.symm
      rw [this] at hu
      exact absurd hu (by simp [SessionManager.Unlock])
    | ok sm2 =>
      obtain ⟨h4, h5⟩ := h3 sm2 hu
      simp [Except.map, h1, h2, hu, h4, h5]

/-- C7: on a locked session with stored key hash `h`, `VerifyKeyHash c`
succeeds exactly when `c = h`, fails with `InvalidPassword` otherwise,
and never changes the manager state; without a session, or with an
unlocked one, it returns `SessionNotLocked`. -/
theorem c7_verify_key_hash (sm : SessionManager) (sess : Session)
    (h : Bytes) (hsess : sm.session = some sess)
    (hlocked : sess.locked = true) (hkh : sess.keyHash = some h) :
    (∀ c : Bytes, (sm.VerifyKeyHash c).2 = sm ∧
      ((sm.VerifyKeyHash c).1 = .ok () ↔ c = h) ∧
      (c ≠ h → (sm.VerifyKeyHash c).1 = .error .invalidPassword)) ∧
    ∀ (sm' : SessionManager) (c : Bytes),
      (sm'.session = none ∨
        ∃ s2, sm'.session = some s2 ∧ s2.locked = false) →
      (sm'.VerifyKeyHash c).1 = .error .sessionNotLocked := by
  constructor
  · intro c
    refine ⟨rfl, ?_, ?_⟩
    · unfold SessionManager.VerifyKeyHash
      rw [hsess]
      simp only [hlocked, Bool.not_true, Bool.false_eq_true, if_false, hkh]
      unfold ConstantTimeCompare
      by_cases hc : h = c
      · subst hc
        simp
      · rw [if_pos (by simpa using hc)]
        simp only [reduceCtorEq, false_iff]
        exact fun hch => hc hch.symm
    · intro hne
      unfold SessionManager.VerifyKeyHash
      rw [hsess]
      simp only [hlocked, Bool.not_true, Bool.false_eq_true, if_false, hkh]
      unfold ConstantTimeCompare
      rw [if_pos (by simp; exact fun hhc => hne hhc.symm)]
  · intro sm' c hcase
    unfold SessionManager.VerifyKeyHash
    rcases hcase with hnone | ⟨s2, hs2, hunlocked⟩
    · rw [hnone]
    · rw [hs2]
      simp [hunlocked]

/-- Concrete sample states used by the session witnesses. -/
def sampleLockedSession : Session :=
  { token := "t", locked := true, createdAt := 1, lockedAt := 2,
    keyHash := some [1, 2, 3], salt := some [4, 5] }

def sampleLockedManager : SessionManager :=
  { session := some sampleLockedSession }

def sampleUnlockedSession : Session :=
  { token := "tk", locked := false, createdAt := 3, lockedAt := 0,
    keyHash := none, salt := none }

def sampleUnlockedManager : SessionManager :=
  { session := some sampleUnlockedSession }

/-- Witness for C7 at a concrete locked manager, matching and
non-matching candidates, and a manager without a session. -/
theorem c7_verify_key_hash_witness :
    (sampleLockedManager.VerifyKeyHash [1, 2, 3]).1 = .ok () ∧
      (sampleLockedManager.VerifyKeyHash [9, 9, 9]).1
        = .error .invalidPassword ∧
      (({ session := none } : SessionManager).VerifyKeyHash [1, 2, 3]).1
        = .error .sessionNotLocked := by
  obtain ⟨hok, hother⟩ := c7_verify_key_hash sampleLockedManager
    sampleLockedSession [1, 2, 3] rfl rfl rfl
  refine ⟨(hok [1, 2, 3]).2.1.mpr rfl, (hok [9, 9, 9]).2.2 (by decide), ?_⟩
  exact hother { session := none } [1, 2, 3] (Or.inl rfl)

/-- The exact mutation `Lock` applies to an existing session: only
`locked`, `lockedAt`, `keyHash`, `salt` change. -/
def lockedFields (sess : Session) (kh salt : Bytes) (now : Nat) : Session :=
  { sess with
    locked := true
    lockedAt := now
    keyHash := some kh
    salt := some salt }

/-- The exact mutation `Unlock` applies: only `locked`, `lockedAt`,
`keyHash`, `salt` change. -/
def unlockedFields (sess : Session) : Session :=
  { sess with
    locked := false
    lockedAt := 0
    keyHash := none
    salt := none }

/-- C10 (frame property): on an existing session, successful `Lock` and
`Unlock` leave the token and creation timestamp unchanged — `GetToken`
and `Status().CreatedAt` agree before and after — and mutate only
`locked`, `lockedAt`, `keyHash` and `salt`. -/
theorem c10_lock_unlock_frame (sm : SessionManager) (sess : Session)
    (hsess : sm.session = some sess) :
    (∀ (kh salt : Bytes) (tokenRes : Option String) (now : Nat)
        (sm' : SessionManager), sm.Lock kh salt tokenRes now = .ok sm' →
      sm'.GetToken = sm.GetToken ∧
        (sm'.Status).CreatedAt = (sm.Status).CreatedAt ∧
        sm'.session = some (lockedFields sess kh salt now)) ∧
    ∀ sm' : SessionManager, sm.Unlock = .ok sm' →
      sm'.GetToken = sm.GetToken ∧
        (sm'.Status).CreatedAt = (sm.Status).CreatedAt ∧
        sm'.session = some (unlockedFields sess) := by
  constructor
  · intro kh salt tokenRes now sm' hlock
    unfold SessionManager.Lock at hlock
    rw [hsess] at hlock
    simp only at hlock
    by_cases hl : sess.locked
    · rw [if_pos hl] at hlock
      exact absurd hlock (by simp)
    · rw [if_neg hl] at hlock
      simp only [Except.ok.injEq] at hlock
      subst hlock
      exact ⟨by simp [SessionManager.GetToken, hsess],
        by simp [SessionManager.Status, hsess], by simp [lockedFields]⟩
  · intro sm' hu
    unfold SessionManager.Unlock at hu
    rw [hsess] at hu
    simp only at hu
    by_cases hl : sess.locked
    · rw [if_neg (by simp [hl])] at hu
      simp only [Except.ok.injEq] at hu
      subst hu
      exact ⟨by simp [SessionManager.GetToken, hsess],
        by simp [SessionManager.Status, hsess], by simp [unlockedFields]⟩
    · rw [if_pos (by simp [hl])] at hu
      exact absurd hu (by simp)

/-- Witness for C10 at a concrete session. -/
theorem c10_lock_unlock_frame_witness :
    (sampleUnlockedManager.Lock [1] [2] none 9).map
      (fun sm' => (sm'.GetToken, (sm'.Status).CreatedAt))
      = .ok ("tk", 3) := by
  cases hlk : sampleUnlockedManager.Lock [1] [2] none 9 with
  | error e =>
    exact absurd hlk (by simp [sampleUnlockedManager,
      sampleUnlockedSession, SessionManager.Lock])
  | ok sm' =>
    obtain ⟨h1, h2, _⟩ := (c10_lock_unlock_frame sampleUnlockedManager
      sampleUnlockedSession rfl).1 [1] [2] none 9 sm' hlk
    simp only [Except.map]
    rw [h1, h2]
    rfl

/-! ## Tripwire (src/internal/secure/fortified.go, second part)

One-shot callback bus.  Callbacks are identified by opaque ids; an
execution is a sequence of `RegisterCallback` calls, `ManualTrigger`
calls, and watcher polls (`detect b` is one `watchLoop` tick whose
`detectIntrusion()` returned `b`).  Each step yields the list of
callbacks the Go code runs at that step: the snapshot invoked by
`trigger`, or the single `go fn()` launched by a late registration.
Scheduling (the separate goroutine, the 50 ms poll interval) is not
modelled; only which callbacks run, and how often, is. -/

abbrev CbId := Nat

structure Tripwire where
  callbacks : List CbId
  triggered : Bool
  deriving DecidableEq, Repr

/-- `NewTripwire` (interval defaulting only). -/
def NewTripwire : Tripwire := { callbacks := [], triggered := false }

/-- `Tripwire.RegisterCallback`: appended before triggering, run
immediately (on its own task) after. -/
def Tripwire.registerCallback (t : Tripwire) (id : CbId) :
    Tripwire × List CbId :=
  if t.triggered then (t, [id])
  else ({ t with callbacks := t.callbacks ++ [id] }, [])

/-- `Tripwire.trigger`: first call snapshots and runs the registered
callbacks; later calls do nothing. -/
def Tripwire.trigger (t : Tripwire) : Tripwire × List CbId :=
  if t.triggered then (t, [])
  else ({ t with triggered := true }, t.callbacks)

inductive TwOp where
  | register (id : CbId)  -- RegisterCallback(fn)
  | manualTrigger         -- ManualTrigger()
  | detect (b : Bool)     -- one watchLoop tick; b = detectIntrusion()
  deriving DecidableEq, Repr

def Tripwire.stepOp (t : Tripwire) (op : TwOp) : Tripwire × List CbId :=
  match op with
  | .register id => t.registerCallback id
  | .manualTrigger => t.trigger
  | .detect b => if b then t.trigger else (t, [])

/-- Run a call sequence, collecting every callback invocation in order. -/
def Tripwire.runOps (t : Tripwire) (invoked : List CbId) :
    List TwOp → Tripwire × List CbId
  | [] => (t, invoked)
  | op :: rest =>
    Tripwire.runOps (t.stepOp op).1 (invoked ++ (t.stepOp op).2) rest

/-- The callback registrations a sequence performs, in order. -/
def regs : List TwOp → List CbId
  | [] => []
  | .register id :: rest => id :: regs rest
  | .manualTrigger :: rest => regs rest
  | .detect _ :: rest => regs rest

/-- Whether the sequence contains a triggering event (a manual trigger
or a positive detection). -/
def hasTrigger : List TwOp → Bool
  | [] => false
  | .register _ :: rest => hasTrigger rest
  | .manualTrigger :: _ => true
  | .detect b :: rest => b || hasTrigger rest

/-- Complete description of a run.  Once triggered the state is frozen
and every late registration is invoked immediately; an untriggered run
with no triggering event invokes nothing and accumulates registrations;
a run that triggers invokes exactly the pre-registered callbacks at the
first trigger and each later registration immediately — so the output
is the accumulator followed by every registration, each exactly once. -/
theorem runOps_spec : ∀ (ops : List TwOp) (t : Tripwire)
    (invoked : List CbId),
    (t.triggered = true → t.runOps invoked ops = (t, invoked ++ regs ops)) ∧
    (t.triggered = false → hasTrigger ops = false →
      t.runOps invoked ops
        = ({ callbacks := t.callbacks ++ regs ops, triggered := false },
            invoked)) ∧
    (t.triggered = false → hasTrigger ops = true →
      (t.runOps invoked ops).2 = invoked ++ t.callbacks ++ regs ops)
  | [], t, invoked => by
    refine ⟨fun _ => by simp [Tripwire.runOps, regs], fun hf _ => ?_,
      fun _ habs => by simp [hasTrigger] at habs⟩
    simp only [Tripwire.runOps, regs, List.append_nil]
    rw [show ({ callbacks := t.callbacks, triggered := false } : Tripwire)
      = t from by cases t; simp_all]
  | op :: rest, t, invoked => by
    have ihA := fun t' inv' => (runOps_spec rest t' inv').1
    have ihB := fun t' inv' => (runOps_spec rest t' inv').2.1
    have ihC := fun t' inv' => (runOps_spec rest t' inv').2.2
    cases op with
    | register id =>
      simp only [Tripwire.runOps, Tripwire.stepOp, Tripwire.registerCallback,
        regs, hasTrigger]
      refine ⟨fun ht => ?_, fun hf hnt => ?_, fun hf ht => ?_⟩
      · rw [if_pos ht]
        dsimp only
        rw [ihA t (invoked ++ [id]) ht]
        simp
      · rw [if_neg (by simp [hf])]
        dsimp only
        rw [ihB { t with callbacks := t.callbacks ++ [id] } (invoked ++ [])
          hf hnt]
        simp
      · rw [if_neg (by simp [hf])]
        dsimp only
        rw [ihC { t with callbacks := t.callbacks ++ [id] } (invoked ++ [])
          hf ht]
        simp
    | manualTrigger =>
      simp only [Tripwire.runOps, Tripwire.stepOp, Tripwire.trigger,
        regs, hasTrigger]
      refine ⟨fun ht => ?_, fun hf hnt => by simp at hnt, fun hf _ => ?_⟩
      · rw [if_pos ht]
        dsimp only
        rw [ihA t (invoked ++ []) ht]
        simp
      · rw [if_neg (by simp [hf])]
        dsimp only
        rw [ihA { t with triggered := true } (invoked ++ t.callbacks) rfl]
    | detect b =>
      simp only [Tripwire.runOps, Tripwire.stepOp, Tripwire.trigger,
        regs, hasTrigger]
      cases b with
      | false =>
        simp only [Bool.false_eq_true, if_false, Bool.false_or]
        refine ⟨fun ht => ?_, fun hf hnt => ?_, fun hf ht => ?_⟩
        · rw [ihA t (invoked ++ []) ht]
          simp
        · rw [ihB t (invoked ++ []) hf hnt]
          simp
        · rw [ihC t (invoked ++ []) hf ht]
          simp
      | true =>
        simp only [if_true, Bool.true_or]
        refine ⟨fun ht => ?_, fun hf hnt => by simp at hnt, fun hf _ => ?_⟩
        · rw [if_pos ht]
          dsimp only
          rw [ihA t (invoked ++ []) ht]
          simp
        · rw [if_neg (by simp [hf])]
          dsimp only
          rw [ihA { t with triggered := true } (invoked ++ t.callbacks) rfl]

/-- C9: over any call sequence on a fresh tripwire, if some trigger event
occurs (manual or detected) then every registration — whether made
before or after the first trigger — is invoked exactly once (late ones
immediately, as the single invocation their registration launches), and
with no trigger event nothing is ever invoked; registering on an
already-triggered tripwire invokes exactly that callback at once, while
registering on an untriggered one invokes nothing and only appends. -/
theorem c9_tripwire_once (ops : List TwOp) (id : CbId) :
    (hasTrigger ops = true →
      (NewTripwire.runOps [] ops).2.count id = (regs ops).count id) ∧
    (hasTrigger ops = false → (NewTripwire.runOps [] ops).2 = []) ∧
    (∀ t : Tripwire, t.triggered = true →
      t.registerCallback id = (t, [id])) ∧
    (∀ t : Tripwire, t.triggered = false →
      (t.registerCallback id).2 = [] ∧
        (t.registerCallback id).1.callbacks = t.callbacks ++ [id]) := by
  obtain ⟨hA, hB, hC⟩ := runOps_spec ops NewTripwire []
  refine ⟨fun ht => ?_, fun hf => ?_, fun t h => ?_, fun t h => ?_⟩
  · rw [hC rfl ht]
    simp [NewTripwire]
  · rw [hB rfl hf]
  · unfold Tripwire.registerCallback
    rw [if_pos h]
  · unfold Tripwire.registerCallback
    rw [if_neg (by simp [h])]
    exact ⟨rfl, rfl⟩

/-- Witness for C9 on a concrete sequence: register 5, trigger manually,
register 7 late — each invoked exactly once; with no trigger nothing is
invoked. -/
theorem c9_tripwire_once_witness :
    hasTrigger [TwOp.register 5, TwOp.manualTrigger, TwOp.register 7]
        = true ∧
      (NewTripwire.runOps [] [TwOp.register 5, TwOp.manualTrigger,
        TwOp.register 7]).2.count 5 = 1 ∧
      (NewTripwire.runOps [] [TwOp.register 5, TwOp.manualTrigger,
        TwOp.register 7]).2.count 7 = 1 ∧
      (NewTripwire.runOps [] [TwOp.register 9]).2 = [] := by
  refine ⟨by decide, ?_, ?_, ?_⟩
  · rw [(c9_tripwire_once [TwOp.register 5, TwOp.manualTrigger,
      TwOp.register 7] 5).1 (by decide)]
    decide
  · rw [(c9_tripwire_once [TwOp.register 5, TwOp.manualTrigger,
      TwOp.register 7] 7).1 (by decide)]
    decide
  · exact (c9_tripwire_once [TwOp.register 9] 9).2.1 (by decide)

/-! ## FileStore (src/internal/store/filestore.go)

Identified entries with tracker accounting.  The Go `map[string]*StoredFile`
becomes an association list with map semantics (`mapInsert` replaces,
`mapErase` removes the key).  Timestamps are abstract `Nat` instants.
`validate.Filename` and `validate.MIMETypeOrDefault` run before any
tracker interaction and their outcome is passed in (`fnRes`, `mt`), since
no claim depends on which names the validator accepts;
`crypto.GenerateFileID` is the oracle `idRes`. -/

inductive StoreErr where
  | invalidFilename        -- any validate.Filename error
  | fileTooLarge           -- ErrFileTooLarge
  | storageFull            -- ErrStorageFull
  | rngFailure             -- GenerateFileID failed
  | allocError (e : BufErr)  -- NewFortifiedBuffer failed (surfaced as-is)
  | fileNotFound           -- ErrFileNotFound
  | fileExpired            -- ErrFileExpired
  deriving DecidableEq, Repr

structure StoredFile where
  ID : String
  data : Option FortifiedBuffer  -- plaintext (unlocked mode)
  encrypted : Option Bytes       -- ciphertext (locked mode)
  Filename : String
  MimeType : String
  Size : Int
  CreatedAt : Nat
  ExpiresAt : Nat
  deriving DecidableEq, Repr

abbrev FileMap := List (String × StoredFile)

/-- Go map delete. -/
def mapErase (files : FileMap) (id : String) : FileMap :=
  files.filter fun p => p.1 != id

/-- Go map assignment (replaces an existing key). -/
def mapInsert (files : FileMap) (id : String) (f : StoredFile) : FileMap :=
  (id, f) :: mapErase files id

structure FileStore where
  files : FileMap
  maxFileSize : Int
  expiry : Nat
  memory : Option MemoryTracker
  deriving DecidableEq, Repr

/-- `validate.FileID`: trim, require exactly 16 hex characters, return
the lowercased id (the redundant `hex.DecodeString` re-check always
succeeds once the pattern and even length hold). -/
def validateFileID (id : String) : Option String :=
  if (trimmedID id).length = 16 && (trimmedID id).all isHexChar then
    some (String.mk ((trimmedID id).map Char.toLower))
  else none
where
  trimmedID (id : String) : List Char :=
    ((id.toList.dropWhile Char.isWhitespace).reverse.dropWhile
      Char.isWhitespace).reverse
  isHexChar (c : Char) : Bool :=
    ('0' ≤ c && c ≤ '9') || ('a' ≤ c && c ≤ 'f') || ('A' ≤ c && c ≤ 'F')

/-- The tail of `FileStore.Store` after the tracker allocation: generate
the id, build the fortified buffer, insert; each failure refunds the
allocation. -/
def FileStore.storeAfterAlloc (fs : FileStore) (fname mt : String)
    (content : Bytes) (contentLen : Int) (mem' : Option MemoryTracker)
    (idRes : Option String) (rng : Nat → Option Nat)
    (draws : Nat → RandDraw) (now : Nat) :
    Except StoreErr String × FileStore :=
  match idRes with
  | none => (.error .rngFailure,
      { fs with memory := mem'.map (fun mm => mm.Free contentLen) })
  | some id =>
    match NewFortifiedBufferWithOptions content DefaultFortifiedOptions
        rng draws with
    | .error e => (.error (.allocError e),
        { fs with memory := mem'.map (fun mm => mm.Free contentLen) })
    | .ok buf =>
      (.ok id, { fs with
        memory := mem'
        files := mapInsert fs.files id
          { ID := id, data := some buf, encrypted := none,
            Filename := fname, MimeType := mt, Size := (buf.Size : Int),
            CreatedAt := now, ExpiresAt := now + fs.expiry } })

/-- `FileStore.Store` (the input `content` is shredded on every path; the
caller's slice is dead after the call, which a value model needs no state
for). -/
def FileStore.Store (fs : FileStore) (content : Bytes)
    (fnRes : Except StoreErr String) (mt : String)
    (idRes : Option String) (rng : Nat → Option Nat)
    (draws : Nat → RandDraw) (now : Nat) :
    Except StoreErr String × FileStore :=
  match fnRes with
  | .error e => (.error e, fs)
  | .ok fname =>
    if fs.maxFileSize < (content.length : Int) then (.error .fileTooLarge, fs)
    else
      match fs.memory with
      | none =>
        fs.storeAfterAlloc fname mt content (content.length : Int) none
          idRes rng draws now
      | some m =>
        match m.Allocate (content.length : Int) with
        | .error _ => (.error .storageFull, fs)
        | .ok m' =>
          { fs with memory := some m' }.storeAfterAlloc fname mt content
            (content.length : Int) (some m') idRes rng draws now

/-- `FileStore.Delete`: validate the id, remove the entry from the map,
then `shredFile` it — which frees the recorded size from the tracker and
destroys the buffers (unobservable once the entry is out of the map). -/
def FileStore.Delete (fs : FileStore) (id0 : String) :
    Except StoreErr Unit × FileStore :=
  match validateFileID id0 with
  | none => (.error .fileNotFound, fs)
  | some id =>
    match fs.files.lookup id with
    | none => (.error .fileNotFound, fs)
    | some file =>
      (.ok (), { fs with
        files := mapErase fs.files id
        memory := fs.memory.map fun mm => mm.Free file.Size })

/-- `FileStore.cleanupExpired` (the sweeper body): identify entries with
`now.After(ExpiresAt)`, remove them, shred each (freeing its size). -/
def FileStore.cleanupExpired (fs : FileStore) (now : Nat) : FileStore :=
  { fs with
    files := fs.files.filter fun p => !(decide (p.2.ExpiresAt < now))
    memory := (fs.files.filter fun p => decide (p.2.ExpiresAt < now)).foldl
      (fun om p => om.map fun mm => mm.Free p.2.Size) fs.memory }

/-- `FileStore.ShredAll`: drain the map, shred every entry. -/
def FileStore.ShredAll (fs : FileStore) : Nat × FileStore :=
  (fs.files.length,
   { fs with
     files := []
     memory := fs.files.foldl
       (fun om p => om.map fun mm => mm.Free p.2.Size) fs.memory })

/-! ## ClipboardStore (src/cmd/server/main.go)

Two slots with the same accounting discipline. -/

inductive ClipboardType where
  | text
  | image
  deriving DecidableEq, Repr

structure ClipboardEntry where
  data : Option FortifiedBuffer
  encrypted : Option Bytes
  contentType : ClipboardType
  mimeType : String
  size : Int
  createdAt : Nat
  expiresAt : Nat
  deriving DecidableEq, Repr

structure ClipboardStore where
  text : Option ClipboardEntry
  image : Option ClipboardEntry
  expiry : Nat
  memory : Option MemoryTracker
  deriving DecidableEq, Repr

/-- `ClipboardStore.DeleteText`: `shredEntry` (tracker `Free` of the
recorded size, buffer destruction) and clear the slot; empty slot is a
no-op. -/
def ClipboardStore.DeleteText (cs : ClipboardStore) : ClipboardStore :=
  match cs.text with
  | none => cs
  | some e => { cs with
      text := none
      memory := cs.memory.map fun mm => mm.Free e.size }

/-- `ClipboardStore.DeleteImage`. -/
def ClipboardStore.DeleteImage (cs : ClipboardStore) : ClipboardStore :=
  match cs.image with
  | none => cs
  | some e => { cs with
      image := none
      memory := cs.memory.map fun mm => mm.Free e.size }

/-- A `Free` refunding a successful `Allocate` restores the counter:
the refund adds and subtracts the same size modulo `2^64` from a
non-negative `int64` start, so it is exact even when the sum wrapped. -/
theorem allocate_free_roundtrip (m : MemoryTracker) (s : Int)
    (h0 : 0 ≤ m.allocated) (hrep : m.allocated < 2 ^ 63) (m' : MemoryTracker)
    (hok : m.Allocate s = .ok m') :
    (m'.Free s).allocated = m.allocated ∧ (m'.Free s).limit = m.limit := by
  rw [Allocate_spec] at hok
  split at hok
  · simp only [Except.ok.injEq] at hok
    subst hok
    rw [Free_spec, if_pos (by omega)]
    exact ⟨rfl, rfl⟩
  split at hok
  · exact absurd hok (by simp)
  · simp only [Except.ok.injEq] at hok
    subst hok
    rw [Free_spec]
    rw [if_neg (by omega),
      if_neg (by
        show ¬ wrap64 (wrap64 (m.allocated + s) - s) < 0
        unfold wrap64
        omega)]
    refine ⟨?_, rfl⟩
    show wrap64 (wrap64 (m.allocated + s) - s) = m.allocated
    unfold wrap64
    omega

/-- C4: every error return of `FileStore.Store` — filename rejection,
file too large, storage full, id-generation failure, buffer-construction
failure — leaves the memory tracker's allocated counter exactly where it
was and inserts no entry: each error-path allocation is refunded. -/
theorem c4_store_error_unchanged (fs : FileStore) (m : MemoryTracker)
    (hm : fs.memory = some m) (h0 : 0 ≤ m.allocated)
    (hrep : m.allocated < 2 ^ 63)
    (content : Bytes) (fnRes : Except StoreErr String) (mt : String)
    (idRes : Option String) (rng : Nat → Option Nat)
    (draws : Nat → RandDraw) (now : Nat) (e : StoreErr) (fs' : FileStore)
    (herr : fs.Store content fnRes mt idRes rng draws now = (.error e, fs')) :
    fs'.memory.map MemoryTracker.Allocated = some m.allocated ∧
      fs'.files = fs.files := by
  unfold FileStore.Store at herr
  cases fnRes with
  | error e' =>
    simp only [Prod.mk.injEq] at herr
    rw [← herr.2, hm]
    exact ⟨rfl, rfl⟩
  | ok fname =>
    simp only at herr
    split at herr
    · simp only [Prod.mk.injEq] at herr
      rw [← herr.2, hm]
      exact ⟨rfl, rfl⟩
    · rw [hm] at herr
      simp only at herr
      cases hA : m.Allocate (content.length : Int) with
      | error eA =>
        rw [hA] at herr
        simp only [Prod.mk.injEq] at herr
        rw [← herr.2, hm]
        exact ⟨rfl, rfl⟩
      | ok m' =>
        rw [hA] at herr
        have hfree := allocate_free_roundtrip m (content.length : Int) h0
          hrep m' hA
        unfold FileStore.storeAfterAlloc at herr
        cases idRes with
        | none =>
          simp only [Prod.mk.injEq] at herr
          rw [← herr.2]
          exact ⟨by simp [MemoryTracker.Allocated, hfree.1], rfl⟩
        | some id =>
          simp only at herr
          cases hF : NewFortifiedBufferWithOptions content
              DefaultFortifiedOptions rng draws with
          | error eF =>
            rw [hF] at herr
            simp only [Prod.mk.injEq] at herr
            rw [← herr.2]
            exact ⟨by simp [MemoryTracker.Allocated, hfree.1], rfl⟩
          | ok buf =>
            rw [hF] at herr
            simp only [Prod.mk.injEq] at herr
            exact absurd herr.1 (by simp)

/-- Concrete store for the C4/C8 witnesses. -/
def sampleStoredFile : StoredFile :=
  { ID := "0123456789abcdef", data := none, encrypted := some [1, 2, 3],
    Filename := "f.bin", MimeType := "application/octet-stream",
    Size := 3, CreatedAt := 0, ExpiresAt := 10 }

def sampleFileStore : FileStore :=
  { files := [("0123456789abcdef", sampleStoredFile)],
    maxFileSize := 100, expiry := 10,
    memory := some { allocated := 3, limit := 1024 } }

/-- Witness for C4: id generation fails after a successful allocation;
the refund leaves the tracker at its old value and the map unchanged. -/
theorem c4_store_error_unchanged_witness :
    (sampleFileStore.Store [1, 2] (.ok "f.bin")
        "application/octet-stream" none (fun _ => none)
        (fun _ => ⟨true, fun i => i⟩) 0).1 = .error .rngFailure ∧
      ((sampleFileStore.Store [1, 2] (.ok "f.bin")
        "application/octet-stream" none (fun _ => none)
        (fun _ => ⟨true, fun i => i⟩) 0).2.memory.map
          MemoryTracker.Allocated = some 3 ∧
       (sampleFileStore.Store [1, 2] (.ok "f.bin")
        "application/octet-stream" none (fun _ => none)
        (fun _ => ⟨true, fun i => i⟩) 0).2.files
          = sampleFileStore.files) := by
  refine ⟨rfl, ?_⟩
  exact c4_store_error_unchanged sampleFileStore
    { allocated := 3, limit := 1024 } rfl (by norm_num) (by norm_num) [1, 2]
    (.ok "f.bin") "application/octet-stream" none (fun _ => none)
    (fun _ => ⟨true, fun i => i⟩) 0 .rngFailure _ rfl

theorem lookup_mapErase (files : FileMap) (id : String) :
    (mapErase files id).lookup id = none := by
  induction files with
  | nil => rfl
  | cons p rest ih =>
    obtain ⟨k, v⟩ := p
    unfold mapErase at ih ⊢
    rw [List.filter_cons]
    by_cases h : k = id
    · rw [if_neg (by simp [h])]
      exact ih
    · rw [if_pos (by simp [h])]
      rw [List.lookup_cons]
      have hne : (id == k) = false :=
        beq_eq_false_iff_ne.mpr fun hh => h hh.symm
      rw [hne]
      exact ih

/-- Exact `Free` of a size the counter covers. -/
theorem Free_exact (m : MemoryTracker) (s : Int) (h0 : 0 ≤ s)
    (hle : s ≤ m.allocated) (hrep : m.allocated < 2 ^ 63) :
    m.Free s = { allocated := m.allocated - s, limit := m.limit } := by
  rw [Free_nowrap m s (by omega) (by omega)]
  by_cases h : s ≤ 0
  · rw [if_pos h]
    have hz : s = 0 := le_antisymm h h0
    subst hz
    cases m
    simp
  · rw [if_neg h, if_neg (by omega)]

/-- Shredding a list of entries frees exactly the sum of their recorded
sizes (each entry once). -/
theorem foldFree_spec (entries : FileMap) :
    ∀ (m : MemoryTracker),
      (∀ p ∈ entries, 0 ≤ p.2.Size) →
      (entries.map fun p => p.2.Size).sum ≤ m.allocated →
      m.allocated < 2 ^ 63 →
      entries.foldl (fun om p => om.map fun mm => mm.Free p.2.Size) (some m)
        = some { allocated := m.allocated -
            (entries.map fun p => p.2.Size).sum, limit := m.limit } := by
  induction entries with
  | nil =>
    intro m _ _ _
    simp
  | cons p rest ih =>
    intro m hsz hsum hrep
    simp only [List.map_cons, List.sum_cons] at hsum ⊢
    have hrestnn : 0 ≤ (rest.map fun p => p.2.Size).sum := by
      apply List.sum_nonneg
      intro x hx
      obtain ⟨q, hq, rfl⟩ := List.mem_map.mp hx
      exact hsz q (List.mem_cons_of_mem _ hq)
    have hp0 : 0 ≤ p.2.Size := hsz p (List.mem_cons_self _ _)
    simp only [List.foldl_cons, Option.map_some']
    rw [Free_exact m p.2.Size hp0 (by omega) hrep]
    rw [ih { allocated := m.allocated - p.2.Size, limit := m.limit }
      (fun q hq => hsz q (List.mem_cons_of_mem _ hq)) (by simp only []; omega)
      (by simp only []; omega)]
    simp only [Option.some.injEq, MemoryTracker.mk.injEq]
    refine ⟨by omega, by simp⟩

/-- C8: deleting an entry frees its recorded size exactly once.
`FileStore.Delete` on a present id returns ok, removes the entry and
decrements the tracker by the entry's size; a second `Delete` of the same
id fails and changes nothing; `ClipboardStore.DeleteText`/`DeleteImage`
on an occupied slot decrement once, empty the slot, and are idempotent;
and after the delete, `ShredAll` frees exactly the remaining entries'
sizes — the deleted entry's size is never freed again. -/
theorem c8_delete_frees_once (fs : FileStore) (m : MemoryTracker)
    (id : String) (f : StoredFile) (hm : fs.memory = some m)
    (hvid : validateFileID id = some id)
    (hlook : fs.files.lookup id = some f)
    (hsz : 0 ≤ f.Size) (hle : f.Size ≤ m.allocated)
    (hrep : m.allocated < 2 ^ 63) :
    ((fs.Delete id).1 = .ok () ∧
      (fs.Delete id).2.files = mapErase fs.files id ∧
      (fs.Delete id).2.files.lookup id = none ∧
      (fs.Delete id).2.memory
        = some { allocated := m.allocated - f.Size, limit := m.limit }) ∧
    ((fs.Delete id).2.Delete id = (.error .fileNotFound, (fs.Delete id).2)) ∧
    (∀ (cst : ClipboardStore) (mc : MemoryTracker) (e : ClipboardEntry),
      cst.memory = some mc → cst.text = some e → 0 ≤ e.size →
        e.size ≤ mc.allocated → mc.allocated < 2 ^ 63 →
      cst.DeleteText.text = none ∧
        cst.DeleteText.memory
          = some { allocated := mc.allocated - e.size, limit := mc.limit } ∧
        cst.DeleteText.DeleteText = cst.DeleteText) ∧
    (∀ (cst : ClipboardStore) (mc : MemoryTracker) (e : ClipboardEntry),
      cst.memory = some mc → cst.image = some e → 0 ≤ e.size →
        e.size ≤ mc.allocated → mc.allocated < 2 ^ 63 →
      cst.DeleteImage.image = none ∧
        cst.DeleteImage.memory
          = some { allocated := mc.allocated - e.size, limit := mc.limit } ∧
        cst.DeleteImage.DeleteImage = cst.DeleteImage) ∧
    ((∀ p ∈ mapErase fs.files id, 0 ≤ p.2.Size) →
      ((mapErase fs.files id).map fun p => p.2.Size).sum
          ≤ m.allocated - f.Size →
      ((fs.Delete id).2.ShredAll).2.memory
        = some { allocated := m.allocated - f.Size -
                   ((mapErase fs.files id).map fun p => p.2.Size).sum,
                 limit := m.limit }) := by
  have hdel : fs.Delete id = (.ok (),
      { fs with
        files := mapErase fs.files id
        memory := some { allocated := m.allocated - f.Size,
                         limit := m.limit } }) := by
    unfold FileStore.Delete
    rw [hvid]
    simp only
    rw [hlook, hm]
    simp only [Option.map_some']
    rw [Free_exact m f.Size hsz hle hrep]
  refine ⟨?_, ?_, ?_, ?_, ?_⟩
  · rw [hdel]
    exact ⟨rfl, rfl, lookup_mapErase fs.files id, rfl⟩
  · rw [hdel]
    unfold FileStore.Delete
    rw [hvid]
    simp only
    rw [show (mapErase fs.files id).lookup id = none from
      lookup_mapErase fs.files id]
  · intro cst mc e hmc htext h0 hlec hrepc
    unfold ClipboardStore.DeleteText
    rw [htext]
    simp only
    refine ⟨trivial, ?_, trivial⟩
    rw [hmc]
    simp only [Option.map_some', Option.some.injEq]
    exact Free_exact mc e.size h0 hlec hrepc
  · intro cst mc e hmc himage h0 hlec hrepc
    unfold ClipboardStore.DeleteImage
    rw [himage]
    simp only
    refine ⟨trivial, ?_, trivial⟩
    rw [hmc]
    simp only [Option.map_some', Option.some.injEq]
    exact Free_exact mc e.size h0 hlec hrepc
  · intro hall hsum
    rw [hdel]
    unfold FileStore.ShredAll
    simp only
    exact foldFree_spec (mapErase fs.files id)
      { allocated := m.allocated - f.Size, limit := m.limit } hall hsum
      (by simp only []; omega)

/-- Witness for C8 at a concrete store: one entry of size 3 under an
allocated count of 3; deleting it returns the tracker to 0 and a second
delete fails. -/
theorem c8_delete_frees_once_witness :
    validateFileID "0123456789abcdef" = some "0123456789abcdef" ∧
      (sampleFileStore.Delete "0123456789abcdef").1 = .ok () ∧
      (sampleFileStore.Delete "0123456789abcdef").2.memory
        = some { allocated := 0, limit := 1024 } ∧
      ((sampleFileStore.Delete "0123456789abcdef").2.Delete
        "0123456789abcdef").1 = .error .fileNotFound := by
  have h := c8_delete_frees_once sampleFileStore
    { allocated := 3, limit := 1024 } "0123456789abcdef" sampleStoredFile
    rfl (by decide) (by decide) (by decide) (by decide) (by decide)
  refine ⟨by decide, h.1.1, ?_, ?_⟩
  · rw [h.1.2.2.2]
    decide
  · rw [h.2.1]

end EventHorizon
